import Mathlib

/-!
Verification of the DCF calculator's valuation core against its specification.

The Python source (modules/financials.py, modules/utils.py, modules/data.py,
modules/visualization.py) is embedded shallowly: every numeric value is a
rational number (`ℚ`), pandas DataFrames become association lists of rows of
optional rationals (`none` models a null/NaN cell), Python dictionaries with
optional keys become structures of `Option ℚ` fields, and a Python function
that can raise `UnboundLocalError` is modelled as returning `Option _`.
-/

namespace DCF

/-- Percentage normalisation used throughout the source:
`if r > 1: r = r / 100`. -/
def pctNorm (r : ℚ) : ℚ := if r > 1 then r / 100 else r

/-- `powSum x n = x + x^2 + ... + x^n`; the exact value accumulated by the
year-by-year loops once each year's `cf * pv_factor` is expressed as a power
of the common ratio. -/
def powSum (x : ℚ) : ℕ → ℚ
  | 0 => 0
  | n + 1 => powSum x n + x ^ (n + 1)

/-- The growth-stage loop of `calculate_dcf_earnings_based` /
`calculate_dcf_fcf_based`:
`cf = base * (1+g)**year`, `pv_factor = 1 / (1+d)**year`, summed over
`year = 1 .. n`. -/
def directGrowthSum (base g d : ℚ) : ℕ → ℚ
  | 0 => 0
  | n + 1 => directGrowthSum base g d n + base * (1 + g) ^ (n + 1) * (1 / (1 + d) ^ (n + 1))

/-- The terminal-stage loop: `cf = cf_end * (1+tg)**year`,
`pv_factor = 1 / (1+d)**(n1+year)`, summed over `year = 1 .. n2`. -/
def directTerminalSum (cfEnd tg d : ℚ) (n1 : ℕ) : ℕ → ℚ
  | 0 => 0
  | t + 1 => directTerminalSum cfEnd tg d n1 t + cfEnd * (1 + tg) ^ (t + 1) * (1 / (1 + d) ^ (n1 + (t + 1)))

/-- Geometric partial sum as written in the source:
`x * (1 - x**n) / (1 - x)` with the `abs(x-1) < 1e-10` guard replacing it by
the year count `n`. -/
def geomSumGuarded (x : ℚ) (n : ℕ) : ℚ :=
  if |x - 1| < 1 / 10 ^ 10 then (n : ℚ) else x * (1 - x ^ n) / (1 - x)

/-- The shared body of `calculate_dcf_earnings_based` and
`calculate_dcf_fcf_based` after their input normalisation: the pair
(closed-form `dcf_value`, `direct_dcf_value` cross-check) that both source
functions compute before comparing the two against the 0.5 tolerance. -/
def dcf_closed_and_direct (base g1 d tg : ℚ) (n1 n2 : ℕ) : ℚ × ℚ :=
  let x := (1 + g1) / (1 + d)
  let y := (1 + tg) / (1 + d)
  let sum1 := geomSumGuarded x n1
  let sum2 := geomSumGuarded y n2
  let dcf_value := base * (sum1 + x ^ n1 * sum2)
  let growth_stage_pv_sum := directGrowthSum base g1 d n1
  let cf_at_growth_end := base * (1 + g1) ^ n1
  let terminal_stage_pv_sum := directTerminalSum cf_at_growth_end tg d n1 n2
  (dcf_value, growth_stage_pv_sum + terminal_stage_pv_sum)

/-- Stage-1 growth clamp shared by both closed-form entry points:
`growth_rate_stage1 = max(0.05, min(0.20, growth_rate_stage1))` after
percentage normalisation. -/
def stage1Clamped (growth_rate_stage1 : ℚ) : ℚ :=
  max 0.05 (min 0.20 (pctNorm growth_rate_stage1))

/-- Discount rate used by `calculate_dcf_earnings_based`: after percentage
normalisation, `if discount_rate <= terminal_growth_rate: discount_rate =
max(discount_rate, terminal_growth_rate + 0.02)`. -/
def earnDiscount (discount_rate terminal_growth_rate : ℚ) : ℚ :=
  let d0 := pctNorm discount_rate
  let tg := pctNorm terminal_growth_rate
  if d0 ≤ tg then max d0 (tg + 0.02) else d0

/-- `calculate_dcf_earnings_based` (financials.py:2552-2617), as the pair
(closed-form value, direct year-by-year cross-check). -/
def calculate_dcf_earnings_based_pair (eps_without_nri growth_rate_stage1 discount_rate : ℚ)
    (growth_years : ℕ) (terminal_growth_rate : ℚ) (terminal_years : ℕ) : ℚ × ℚ :=
  dcf_closed_and_direct eps_without_nri (stage1Clamped growth_rate_stage1)
    (earnDiscount discount_rate terminal_growth_rate) (pctNorm terminal_growth_rate)
    growth_years terminal_years

/-- The value returned by `calculate_dcf_earnings_based`. -/
def calculate_dcf_earnings_based (eps_without_nri growth_rate_stage1 discount_rate : ℚ)
    (growth_years : ℕ) (terminal_growth_rate : ℚ) (terminal_years : ℕ) : ℚ :=
  (calculate_dcf_earnings_based_pair eps_without_nri growth_rate_stage1 discount_rate
    growth_years terminal_growth_rate terminal_years).1

/-- `calculate_dcf_fcf_based` (financials.py:2649-2707), as the pair
(closed-form value, direct cross-check).  Identical to the earnings-based
function except that it has NO `if discount_rate <= terminal_growth_rate`
repair step: the normalised discount rate is used as supplied. -/
def calculate_dcf_fcf_based_pair (fcf_per_share growth_rate_stage1 discount_rate : ℚ)
    (growth_years : ℕ) (terminal_growth_rate : ℚ) (terminal_years : ℕ) : ℚ × ℚ :=
  dcf_closed_and_direct fcf_per_share (stage1Clamped growth_rate_stage1)
    (pctNorm discount_rate) (pctNorm terminal_growth_rate) growth_years terminal_years

/-- The value returned by `calculate_dcf_fcf_based`. -/
def calculate_dcf_fcf_based (fcf_per_share growth_rate_stage1 discount_rate : ℚ)
    (growth_years : ℕ) (terminal_growth_rate : ℚ) (terminal_years : ℕ) : ℚ :=
  (calculate_dcf_fcf_based_pair fcf_per_share growth_rate_stage1 discount_rate
    growth_years terminal_growth_rate terminal_years).1

/-- Success payload of `calculate_two_stage_dcf` (financials.py:2844-2855). -/
structure TwoStageOk where
  growth_stage_value : ℚ
  pv_terminal_value : ℚ
  intrinsic_value : ℚ
  equity_value : ℚ
  fair_value_per_share : ℚ
  projected_earnings : List ℚ
  pv_cash_flows : List ℚ
  deriving Repr, DecidableEq

/-- Result dictionary of `calculate_two_stage_dcf`: either one of the two
early-exit failure dictionaries (`success: False`, an error message, and
`fair_value_per_share: 0`, with no valuation fields) or the full success
dictionary. -/
inductive TwoStageResult where
  | failure (error : String)
  | ok (r : TwoStageOk)
  deriving Repr, DecidableEq

/-- The `success` entry of the returned dictionary. -/
def TwoStageResult.success : TwoStageResult → Bool
  | .failure _ => false
  | .ok _ => true

/-- The `fair_value_per_share` entry (0 in both failure dictionaries). -/
def TwoStageResult.fair_value_per_share : TwoStageResult → ℚ
  | .failure _ => 0
  | .ok r => r.fair_value_per_share

/-- A pandas DataFrame as the extractors see it: a column count and an
association list from row label to the row's period values, where `none`
models a null/NaN cell.  Column 0 is the most recent fiscal period. -/
structure DataFrame where
  ncols : ℕ
  rows : List (String × List (Option ℚ))
  deriving Repr

/-- `df.empty`: no rows or no columns. -/
def DataFrame.emptyDf (df : DataFrame) : Bool := df.rows.isEmpty || df.ncols == 0

/-- `name in df.index`. -/
def DataFrame.hasRow (df : DataFrame) (name : String) : Bool :=
  df.rows.any (fun r => r.1 == name)

/-- `df.loc[name].iloc[c]` / `df.loc[name, columns[c]]`: the cell of the
first row labelled `name` at column `c`.  `none` covers both a missing row
and a null cell — the callers below treat the two identically. -/
def DataFrame.cell (df : DataFrame) (name : String) (c : ℕ) : Option ℚ :=
  match df.rows.find? (fun r => r.1 == name) with
  | some r => r.2.getD c none
  | none => none

/-- The candidate loop of `utils.safe_get`: return the first candidate whose
cell is present, non-null AND non-zero; fall through otherwise. -/
def safeGetLoop (df : DataFrame) (c : ℕ) : List String → ℚ
  | [] => 0
  | n :: rest =>
    match df.cell n c with
    | some v => if v ≠ 0 then v else safeGetLoop df c rest
    | none => safeGetLoop df c rest

/-- `safe_get` (utils.py:6-30). -/
def safe_get (df : DataFrame) (row_names : List String) (column_index : ℕ) : ℚ :=
  if df.emptyDf = true ∨ df.ncols ≤ column_index then 0
  else safeGetLoop df column_index row_names

/-- `safe_get_multi` (utils.py:32-56), a verbatim copy of `safe_get`. -/
def safe_get_multi (df : DataFrame) (possible_names : List String) (column_index : ℕ) : ℚ :=
  if df.emptyDf = true ∨ df.ncols ≤ column_index then 0
  else safeGetLoop df column_index possible_names

/-- The candidate loop of the financials.py variant: return the first
candidate whose cell is present and non-null — zero included. -/
def safeGetMultiLoop (df : DataFrame) (c : ℕ) : List String → Option ℚ
  | [] => none
  | n :: rest =>
    match df.cell n c with
    | some v => some v
    | none => safeGetMultiLoop df c rest

/-- `safe_get_multi` (financials.py:249-266): returns `None` (not 0) when
the table is absent/empty, the column is out of range, or no candidate has a
non-null value. -/
def safe_get_multi_financials (df : Option DataFrame) (possible_names : List String)
    (column_index : ℕ) : Option ℚ :=
  match df with
  | none => none
  | some df =>
    if df.emptyDf = true ∨ df.ncols ≤ column_index then none
    else safeGetMultiLoop df column_index possible_names

/-- The lookup the claim describes: value of the first candidate present
with a non-null entry (zero included), sentinel 0 when none matches or the
table/column is absent. -/
def claimedExtractorLookup (df : DataFrame) (names : List String) (c : ℕ) : ℚ :=
  if df.emptyDf = true ∨ df.ncols ≤ c then 0
  else ((names.findSome? fun n => df.cell n c).getD 0)

/-- First candidate with a present, non-null, non-zero cell (what
`safe_get`'s loop actually finds). -/
def firstNonzeroCell (df : DataFrame) (names : List String) (c : ℕ) : Option ℚ :=
  names.findSome? fun n =>
    match df.cell n c with
    | some v => if v ≠ 0 then some v else none
    | none => none

/-- The `financials` dictionary fed to `calculate_wacc`; absent keys are
`none`. -/
structure Financials where
  beta : Option ℚ := none
  tax_rate : Option ℚ := none
  total_debt : Option ℚ := none
  market_cap : Option ℚ := none
  interest_expense_non_operating : Option ℚ := none
  interest_expense : Option ℚ := none
  income_stmt : Option DataFrame := none
  balance_sheet : Option DataFrame := none

/-- The `custom_inputs` override dictionary of `calculate_wacc`; a `some`
field models the key being present. -/
structure CustomInputs where
  use_custom_wacc : Bool := false
  wacc : Option ℚ := none
  user_provided : Bool := false
  beta : Option ℚ := none
  risk_free_rate : Option ℚ := none
  market_risk_premium : Option ℚ := none
  tax_rate : Option ℚ := none
  cost_of_equity : Option ℚ := none
  cost_of_debt : Option ℚ := none
  weight_of_debt : Option ℚ := none

/-- The result dictionary of `calculate_wacc` (financials.py:231-245). -/
structure WaccResult where
  wacc : ℚ
  cost_of_equity : ℚ
  cost_of_debt : ℚ
  tax_rate : ℚ
  after_tax_cost_of_debt : ℚ
  weight_of_equity : ℚ
  weight_of_debt : ℚ
  beta : ℚ
  risk_free_rate : ℚ
  market_risk_premium : ℚ
  wacc_equity_component : ℚ
  wacc_debt_component : ℚ
  average_debt : ℚ
  deriving Repr

/-- `calculate_wacc` returns either the bare custom WACC number (the
`use_custom_wacc` early return) or the components dictionary. -/
inductive WaccReturn where
  | scalar (wacc : ℚ)
  | components (r : WaccResult)
  deriving Repr

/-- The interest-expense field names scanned in the income statement
(financials.py:109-120). -/
def interestFieldNames : List String :=
  ["Interest Expense", "Interest Expense, Net", "Interest Expense Net",
   "Net Interest Expense", "Interest Paid", "Finance Costs", "Financial Expenses",
   "Interest Expense Non Operating", "Interest Expense, Net Non Operating",
   "Non Operating Interest Expense"]

/-- The income-statement scan (financials.py:122-128): first field present
with a non-null, non-zero value at the most recent column, in absolute
value. -/
def scanInterest (stmt : DataFrame) : Option ℚ :=
  interestFieldNames.findSome? fun f =>
    match stmt.cell f 0 with
    | some v => if v ≠ 0 then some |v| else none
    | none => none

/-- One iteration of the balance-sheet debt loop (financials.py:136-151).
State: (collected positive debt values, the shadowed `total_debt` local —
`none` models it having been assigned a NaN cell). -/
def bsDebtStep (bs : DataFrame) (acc : List ℚ × Option ℚ) (colIdx : ℕ) : List ℚ × Option ℚ :=
  if bs.hasRow "Total Debt" then
    match bs.cell "Total Debt" colIdx with
    | some t => (if 0 < t then acc.1 ++ [t] else acc.1, some t)
    | none => (acc.1, none)
  else if bs.hasRow "Long Term Debt" ∧ bs.hasRow "Short Term Debt" then
    match bs.cell "Long Term Debt" colIdx, bs.cell "Short Term Debt" colIdx with
    | some l, some s => (if 0 < l + s then acc.1 ++ [l + s] else acc.1, some (l + s))
    | _, _ => acc
  else acc

/-- The balance-sheet debt loop over up to 3 most recent columns. -/
def bsDebtLoop (bs : DataFrame) (td0 : Option ℚ) : List ℚ × Option ℚ :=
  (List.range (min 3 bs.ncols)).foldl (bsDebtStep bs) ([], td0)

/-- The tail of `calculate_wacc` from the cost-of-debt floor/clamp
(financials.py:183-189) through the final result dictionary (lines
213-245), as a function of the values every path has computed by then. -/
def waccFinish (rf mrp beta tax_rate cod0 weight_of_debt cost_of_equity average_debt : ℚ) :
    WaccResult :=
  let cod1 := if cod0 < rf then rf + 0.02 else cod0
  let cost_of_debt := max (min cod1 0.20) (rf + 0.01)
  let weight_of_equity := 1 - weight_of_debt
  let after_tax_cost_of_debt := cost_of_debt * (1 - tax_rate)
  let wacc0 := weight_of_equity * cost_of_equity + weight_of_debt * after_tax_cost_of_debt
  let wacc := max (min wacc0 0.30) (rf + 0.02)
  { wacc := wacc
    cost_of_equity := cost_of_equity
    cost_of_debt := cost_of_debt
    tax_rate := tax_rate
    after_tax_cost_of_debt := after_tax_cost_of_debt
    weight_of_equity := weight_of_equity
    weight_of_debt := weight_of_debt
    beta := beta
    risk_free_rate := rf
    market_risk_premium := mrp
    wacc_equity_component := weight_of_equity * cost_of_equity * 100
    wacc_debt_component := weight_of_debt * after_tax_cost_of_debt * 100
    average_debt := average_debt }

/-- `calculate_wacc` (financials.py:9-247).  Returns `none` on the one crash
path of the source (`custom_inputs` with `user_provided` but no `tax_rate`
key leaves `tax_rate` unbound and line 217 raises `UnboundLocalError`). -/
def calculate_wacc (financials : Financials) (risk_free_rate : ℚ)
    (market_risk_premium : ℚ := 0.06) (custom_inputs : Option CustomInputs := none) :
    Option WaccReturn :=
  if (custom_inputs.map (·.use_custom_wacc)).getD false then
    let custom_wacc := (custom_inputs.bind (·.wacc)).getD 0.09
    some (.scalar (if custom_wacc > 1 then custom_wacc / 100 else custom_wacc))
  else
    let rf0 := pctNorm risk_free_rate
    let mrp0 := pctNorm market_risk_premium
    let userProv := (custom_inputs.map (·.user_provided)).getD false
    let beta := if userProv then ((custom_inputs.bind (·.beta)) <|> financials.beta).getD 1
      else financials.beta.getD 1
    let rf := if userProv then (custom_inputs.bind (·.risk_free_rate)).getD rf0 else rf0
    let mrp := if userProv then (custom_inputs.bind (·.market_risk_premium)).getD mrp0 else mrp0
    let taxOpt := if userProv then
        (custom_inputs.bind (·.tax_rate)).map (fun t => min (max t 0) 0.5)
      else some (min (max (if financials.tax_rate.getD 21 > 1 then financials.tax_rate.getD 21 / 100
        else financials.tax_rate.getD 0.21) 0) 0.5)
    let total_debt := max 0 (financials.total_debt.getD 0)
    let market_cap := max 0 (financials.market_cap.getD 0)
    let average_debt0 := financials.total_debt.getD 0
    let cost_of_equity :=
      match (if userProv then custom_inputs.bind (·.cost_of_equity) else none) with
      | some v => v
      | none => max (rf + beta * mrp) (rf + 0.02)
    let codData : ℚ × ℚ × Option ℚ :=
      match (if userProv then custom_inputs.bind (·.cost_of_debt) else none) with
      | some c => (c, average_debt0, some total_debt)
      | none =>
        let ie0 := financials.interest_expense_non_operating.getD 0
        let ie1 := if ie0 ≤ 0 then financials.interest_expense.getD 0 else ie0
        let ie2 :=
          if ie1 ≤ 0 then
            match financials.income_stmt with
            | some stmt =>
              if ¬(stmt.emptyDf = true) ∧ 0 < stmt.ncols then (scanInterest stmt).getD ie1
              else ie1
            | none => ie1
          else ie1
        let bsResult :=
          match financials.balance_sheet with
          | some bs =>
            if ¬(bs.emptyDf = true) then bsDebtLoop bs (some total_debt)
            else ([], some total_debt)
          | none => ([], some total_debt)
        let average_debt := if bsResult.1 ≠ [] then bsResult.1.sum / (bsResult.1.length : ℚ)
          else financials.total_debt.getD 0
        let cod := if 0 < ie2 ∧ 0 < average_debt then ie2 / average_debt else rf + 0.02
        (cod, average_debt, bsResult.2)
    let weight_of_debt :=
      match (if userProv then custom_inputs.bind (·.weight_of_debt) else none) with
      | some w => min (max w 0) 0.9
      | none =>
        match codData.2.2 with
        | some td => if 0 < market_cap + td then 1 - market_cap / (market_cap + td) else 0.3
        | none => 0.3
    taxOpt.map fun tax_rate =>
      .components (waccFinish rf mrp beta tax_rate codData.1 weight_of_debt cost_of_equity
        codData.2.1)

/-- The multi-source beta fields of `get_financials` (data.py:130-151):
`info["beta"]`, the alternative fields tried in order with break, and the
`stock.get_info()["beta"]` attempt that overwrites the alternative-field
value when it succeeds. -/
structure BetaInfo where
  beta : Option ℚ := none
  beta3Year : Option ℚ := none
  beta5Year : Option ℚ := none
  betaValue : Option ℚ := none
  quickInfoBeta : Option ℚ := none

/-- The beta normalisation of `get_financials` (data.py:130-157): default
1.0, then `beta > 5.0 → 1.0` (reset to the default, NOT clamped to 5.0) and
`beta < 0.1 → 0.1`. -/
def resolveBeta (info : BetaInfo) : ℚ :=
  let beta0 :=
    match info.beta with
    | some b => b
    | none => (info.quickInfoBeta <|> info.beta3Year <|> info.beta5Year <|> info.betaValue).getD 1
  if 5 < beta0 then 1
  else if beta0 < 1/10 then 1/10
  else beta0

/-- `calculate_two_stage_dcf` (financials.py:2753-2855).  The `last_cf`
used for the terminal part of the projection lists equals
`cf_at_growth_end` in every case (`projected_earnings[-1]` when the growth
phase is non-empty, the explicit fallback otherwise), so the lists are
written directly in terms of it. -/
def calculate_two_stage_dcf (initial_earnings growth_rate terminal_growth_rate discount_rate : ℚ)
    (growth_years terminal_years : ℕ) (net_debt shares_outstanding : ℚ)
    (include_tangible_book : Bool := false) (tangible_book_value : ℚ := 0)
    (use_perpetuity : Bool := false) : TwoStageResult :=
  if ¬(-1 < growth_rate ∧ growth_rate < 2 ∧ -(1/2) < terminal_growth_rate ∧ terminal_growth_rate < 1/2) then
    .failure "Growth rates out of realistic range"
  else if discount_rate ≤ terminal_growth_rate then
    .failure "Discount rate must exceed terminal growth rate"
  else
    let shares := if shares_outstanding ≤ 0 then 1 else shares_outstanding
    let x := (1 + growth_rate) / (1 + discount_rate)
    let growth_stage_value :=
      if x = 1 then initial_earnings * growth_years / (1 + discount_rate)
      else initial_earnings * x * (1 - x ^ growth_years) / (1 - x)
    let cf_at_growth_end := initial_earnings * (1 + growth_rate) ^ growth_years
    let pv_terminal_value :=
      if use_perpetuity then
        cf_at_growth_end * (1 + terminal_growth_rate) / (discount_rate - terminal_growth_rate)
          / (1 + discount_rate) ^ growth_years
      else
        directTerminalSum cf_at_growth_end terminal_growth_rate discount_rate
          growth_years terminal_years
    let intrinsic_value0 := growth_stage_value + pv_terminal_value
    let intrinsic_value :=
      if include_tangible_book ∧ tangible_book_value > 0 then intrinsic_value0 + tangible_book_value
      else intrinsic_value0
    let equity_value := intrinsic_value - net_debt
    let fair_value_per_share := max equity_value 0 / shares
    let projected_earnings :=
      (List.range growth_years).map (fun k => initial_earnings * (1 + growth_rate) ^ (k + 1))
        ++ (List.range terminal_years).map
            (fun k => cf_at_growth_end * (1 + terminal_growth_rate) ^ (k + 1))
    let pv_cash_flows :=
      (List.range growth_years).map
          (fun k => initial_earnings * (1 + growth_rate) ^ (k + 1) / (1 + discount_rate) ^ (k + 1))
        ++ (List.range terminal_years).map
            (fun k => cf_at_growth_end * (1 + terminal_growth_rate) ^ (k + 1)
              / (1 + discount_rate) ^ (growth_years + (k + 1)))
    .ok {
      growth_stage_value := growth_stage_value
      pv_terminal_value := pv_terminal_value
      intrinsic_value := intrinsic_value
      equity_value := equity_value
      fair_value_per_share := fair_value_per_share
      projected_earnings := projected_earnings
      pv_cash_flows := pv_cash_flows }

/-! ## Sensitivity analysis (visualization.py:9-166)

Python's `round` (banker's rounding on floats) is idealised as round-half-up
on ℚ; every rounding the grid construction performs is applied to values
whose exact result is a multiple of the rounding unit, where the two
agree. -/

/-- `round(q, digits)`. -/
def roundTo (digits : ℕ) (q : ℚ) : ℚ := (round (q * 10 ^ digits) : ℤ) / 10 ^ digits

/-- `np.arange(start, stop, step)` for positive step:
`start + k*step` for `k < ceil((stop-start)/step)`. -/
def arangeQ (start stop step : ℚ) : List ℚ :=
  (List.range (max 0 ⌈(stop - start) / step⌉).toNat).map (fun k : ℕ => start + (k : ℚ) * step)

/-- Insertion into a strictly sorted list, dropping duplicates. -/
def insertSorted (a : ℚ) : List ℚ → List ℚ
  | [] => [a]
  | b :: t => if a < b then a :: b :: t else if a = b then b :: t else b :: insertSorted a t

/-- `sorted(list(set(l)))`. -/
def sortDedup (l : List ℚ) : List ℚ := l.foldl (fun acc x => insertSorted x acc) []

/-- `growth_values` before the base-growth append (visualization.py:44):
`[round(g, 4) for g in np.arange(0.0, 0.15 + 0.005, 0.01)]`. -/
def growthValues0 : List ℚ := (arangeQ 0 (15/100 + 1/200) (1/100)).map (roundTo 4)

/-- The final `growth_values` (visualization.py:76-81): append
`round(base_terminal_growth, 4)` when the unrounded base value is missing,
then `sorted(set(...))`. -/
def growth_values_final (base_terminal_growth : ℚ) : List ℚ :=
  sortDedup (if base_terminal_growth ∈ growthValues0 then growthValues0
    else growthValues0 ++ [roundTo 4 base_terminal_growth])

/-- `common_wacc_values` (visualization.py:52-56): WACC mesh from
`max(0.01, round(base_wacc - 0.15, 2))` to `round(base_wacc + 0.15, 2)` in
1% steps. -/
def common_wacc_values (base_wacc : ℚ) : List ℚ :=
  let min_wacc := max (1/100) (roundTo 2 (base_wacc - 15/100))
  let max_wacc := roundTo 2 (base_wacc + 15/100)
  (arangeQ min_wacc (max_wacc + 1/200) (1/100)).map (roundTo 4)

/-- `wacc_values_dict[g]` (visualization.py:59-66): the common WACC values
strictly above `g + 0.0099`, or, when none qualify, `round(g + 0.01, 2)`
followed by the common values above it. -/
def waccDictEntry (base_wacc g : ℚ) : List ℚ :=
  let valid := (common_wacc_values base_wacc).filter (fun w => g + 99/10000 < w)
  if valid ≠ [] then valid
  else
    let min_valid_wacc := roundTo 2 (g + 1/100)
    min_valid_wacc :: (common_wacc_values base_wacc).filter (fun w => min_valid_wacc < w)

/-- The final `wacc_values` (visualization.py:68-82): union of all dict
entries, the base WACC appended when missing, deduplicated and sorted. -/
def all_wacc_values (base_wacc : ℚ) : List ℚ :=
  let aw := sortDedup ((growthValues0.map (waccDictEntry base_wacc)).join)
  sortDedup (if base_wacc ∈ aw then aw else aw ++ [roundTo 4 base_wacc])

/-- A cell of the sensitivity table: `"$v"` (directly computed), `"$v*"`
(interpolated from a neighbour, approximation marker), `"Error"`, or `"N/A"`
(left unresolved). -/
inductive CellVal where
  | direct (v : ℚ)
  | interp (v : ℚ)
  | error
  | na
  deriving Repr, DecidableEq

/-- The inputs `create_sensitivity_analysis` forwards to its
`calculate_dcf_function` argument; `main.py:1790-1799` passes
`calculate_two_stage_dcf` as that argument. -/
structure SensParams where
  initial_fcf : ℚ
  growth_rate : ℚ
  forecast_years : ℕ
  net_debt : ℚ
  shares_outstanding : ℚ
  calcDcf : ℚ → ℚ → ℚ → ℚ → ℕ → ℕ → ℚ → ℚ → TwoStageResult

/-- `dcf_results[(i, j)]` (visualization.py:96-115): computed only when
`w > g`, calling the DCF function with terminal years 10 and reading
`fair_value_per_share` (present in every return dictionary of
`calculate_two_stage_dcf`). -/
def dcf_results (p : SensParams) (ws gs : List ℚ) (i j : ℕ) : Option ℚ :=
  if gs.getD j 0 < ws.getD i 0 then
    some ((p.calcDcf p.initial_fcf p.growth_rate (gs.getD j 0) (ws.getD i 0) p.forecast_years 10
      p.net_debt p.shares_outstanding).fair_value_per_share)
  else none

/-- Interpolation step (a) (visualization.py:127-131): same row, higher
growth columns. -/
def searchRowRight (results : ℕ → ℕ → Option ℚ) (nG i j : ℕ) : Option ℚ :=
  (List.range' (j + 1) (nG - (j + 1))).findSome? (fun k => results i k)

/-- Interpolation step (b) (visualization.py:132-137): same column, lower
WACC rows, from `i-1` down to 0. -/
def searchColBelow (results : ℕ → ℕ → Option ℚ) (i j : ℕ) : Option ℚ :=
  ((List.range i).reverse).findSome? (fun k => results k j)

/-- The eight ray directions of step (c), in source order
(visualization.py:142). -/
def diagDirections : List (ℤ × ℤ) :=
  [(-1, -1), (-1, 0), (-1, 1), (0, -1), (0, 1), (1, -1), (1, 0), (1, 1)]

/-- Interpolation step (c) (visualization.py:138-150): expanding rings
`k = 1 .. max(len(wacc_values), len(growth_values)) - 1`, trying the eight
ray cells at distance `k` in direction order. -/
def searchDiag (results : ℕ → ℕ → Option ℚ) (nW nG i j : ℕ) : Option ℚ :=
  (List.range' 1 (max nW nG - 1)).findSome? fun k : ℕ =>
    diagDirections.findSome? fun dir =>
      let ni := (i : ℤ) + dir.1 * (k : ℤ)
      let nj := (j : ℤ) + dir.2 * (k : ℤ)
      if 0 ≤ ni ∧ ni < nW ∧ 0 ≤ nj ∧ nj < nG then results ni.toNat nj.toNat else none

/-- The full neighbour search for an invalid cell, steps (a), (b), (c) in
order. -/
def interpSearch (results : ℕ → ℕ → Option ℚ) (nW nG i j : ℕ) : Option ℚ :=
  (searchRowRight results nG i j).orElse fun _ =>
    (searchColBelow results i j).orElse fun _ => searchDiag results nW nG i j

/-- The table-filling step for one cell (visualization.py:118-166). -/
def fillCell (results : ℕ → ℕ → Option ℚ) (nW nG i j : ℕ) (w g : ℚ) : CellVal :=
  if w ≤ g then
    match interpSearch results nW nG i j with
    | some v => .interp v
    | none => .na
  else
    match results i j with
    | some v => .direct v
    | none => .error

/-- The sensitivity table of `create_sensitivity_analysis` at row `i`
(WACC), column `j` (terminal growth). -/
def create_sensitivity_cells (p : SensParams) (terminal_growth_rate wacc : ℚ) (i j : ℕ) :
    CellVal :=
  let ws := all_wacc_values wacc
  let gs := growth_values_final terminal_growth_rate
  fillCell (dcf_results p ws gs) ws.length gs.length i j (ws.getD i 0) (gs.getD j 0)

/-- The cent multiples 1/100 .. 16/100; every non-base value the WACC mesh
can contain lies in this list whenever the rounded base WACC is ≤ 0. -/
def centList16 : List ℚ := (List.range 16).map (fun k : ℕ => ((k : ℚ) + 1) / 100)

/-- A concrete parameter bundle (zero inputs, an evaluator returning the
failure dictionary) used to instantiate the grid theorems. -/
def sensParams0 : SensParams :=
  ⟨0, 0, 0, 0, 0, fun _ _ _ _ _ _ _ _ => .failure ""⟩

end DCF

namespace DCF

theorem powSum_succ (x : ℚ) (n : ℕ) : powSum x (n + 1) = powSum x n + x ^ (n + 1) := rfl

/-- Closed form of `powSum` for ratio ≠ 1, matching the source's
`x * (1 - x**n) / (1 - x)`. -/
theorem powSum_eq_geom {x : ℚ} (hx : x ≠ 1) (n : ℕ) :
    powSum x n = x * (1 - x ^ n) / (1 - x) := by
  have h1 : 1 - x ≠ 0 := fun h => hx (by linarith [h])
  induction n with
  | zero => simp [powSum]
  | succ n ih =>
    rw [powSum_succ, ih]
    field_simp
    ring

/-- The growth-stage loop sums to `base * powSum ((1+g)/(1+d)) n`. -/
theorem directGrowthSum_eq (base g d : ℚ) (n : ℕ) :
    directGrowthSum base g d n = base * powSum ((1 + g) / (1 + d)) n := by
  induction n with
  | zero => simp [directGrowthSum, powSum]
  | succ n ih =>
    rw [directGrowthSum, powSum_succ, ih, mul_add, div_pow]
    ring

theorem earnDiscount_of_gt {d tg : ℚ} (h : pctNorm tg < pctNorm d) :
    earnDiscount d tg = pctNorm d := by
  unfold earnDiscount
  rw [if_neg (not_le.mpr h)]

theorem earnDiscount_of_le {d tg : ℚ} (h : pctNorm d ≤ pctNorm tg) :
    earnDiscount d tg = pctNorm tg + 0.02 := by
  unfold earnDiscount
  rw [if_pos h, max_eq_right (h.trans (by norm_num))]

theorem split_discount_pow (c a b : ℚ) (n m : ℕ) :
    c * a * (1 / b ^ (n + m)) = c * (1 / b ^ n) * (a / b ^ m) := by
  rw [pow_add]
  ring

/-- The terminal-stage loop sums to
`cfEnd * (1/(1+d)^n1) * powSum ((1+tg)/(1+d)) n2`. -/
theorem directTerminalSum_eq (cfEnd tg d : ℚ) (n1 n2 : ℕ) :
    directTerminalSum cfEnd tg d n1 n2
      = cfEnd * (1 / (1 + d) ^ n1) * powSum ((1 + tg) / (1 + d)) n2 := by
  induction n2 with
  | zero => simp [directTerminalSum, powSum]
  | succ t ih =>
    rw [directTerminalSum, powSum_succ, ih, mul_add, div_pow,
      split_discount_pow cfEnd ((1 + tg) ^ (t + 1)) (1 + d) n1 (t + 1)]

/-- When neither geometric ratio falls in the `1e-10` guard band, the
closed-form value and the direct year-by-year cross-check agree exactly. -/
theorem dcf_core_closed_eq_direct (base g1 d tg : ℚ) (n1 n2 : ℕ)
    (hx : ¬ |(1 + g1) / (1 + d) - 1| < 1 / 10 ^ 10)
    (hy : ¬ |(1 + tg) / (1 + d) - 1| < 1 / 10 ^ 10) :
    (dcf_closed_and_direct base g1 d tg n1 n2).1 = (dcf_closed_and_direct base g1 d tg n1 n2).2 := by
  have hx1 : (1 + g1) / (1 + d) ≠ 1 := by
    intro h
    exact hx (by rw [h]; norm_num)
  have hy1 : (1 + tg) / (1 + d) ≠ 1 := by
    intro h
    exact hy (by rw [h]; norm_num)
  simp only [dcf_closed_and_direct, geomSumGuarded, if_neg hx, if_neg hy]
  rw [directGrowthSum_eq, directTerminalSum_eq, ← powSum_eq_geom hx1, ← powSum_eq_geom hy1,
    div_pow]
  ring

/-- In the guard branch for the stage-1 ratio, the closed form replaces the
true geometric sum by the year count, so the two values differ by exactly
`base * (n1 - powSum x n1)`. -/
theorem dcf_core_eps_diff (base g1 d tg : ℚ) (n1 n2 : ℕ)
    (hx : |(1 + g1) / (1 + d) - 1| < 1 / 10 ^ 10)
    (hy : ¬ |(1 + tg) / (1 + d) - 1| < 1 / 10 ^ 10) :
    (dcf_closed_and_direct base g1 d tg n1 n2).1 - (dcf_closed_and_direct base g1 d tg n1 n2).2
      = base * ((n1 : ℚ) - powSum ((1 + g1) / (1 + d)) n1) := by
  have hy1 : (1 + tg) / (1 + d) ≠ 1 := by
    intro h
    exact hy (by rw [h]; norm_num)
  simp only [dcf_closed_and_direct, geomSumGuarded, if_pos hx, if_neg hy]
  rw [directGrowthSum_eq, directTerminalSum_eq, ← powSum_eq_geom hy1, div_pow]
  ring

/-- Lower bound `powSum x n ≥ n + (n(n+1)/2)(x-1)` for `x ≥ 1`, by Bernoulli's
inequality applied to each term. -/
theorem powSum_ge_linear {x : ℚ} (hx : 1 ≤ x) (n : ℕ) :
    (n : ℚ) + (n * (n + 1) / 2) * (x - 1) ≤ powSum x n := by
  induction n with
  | zero => simp [powSum]
  | succ n ih =>
    have hb := one_add_mul_le_pow (by linarith : (-2 : ℚ) ≤ x - 1) (n + 1)
    rw [show (1 : ℚ) + (x - 1) = x by ring] at hb
    rw [powSum_succ]
    push_cast
    push_cast at ih hb
    nlinarith [ih, hb]

/-- Any call of `calculate_two_stage_dcf` with `discount_rate ≤
terminal_growth_rate` takes one of the two early-exit failure returns. -/
theorem two_stage_invalid_rate_fails (ie g tg d : ℚ) (n1 n2 : ℕ) (nd sh : ℚ)
    (itb : Bool) (tbv : ℚ) (up : Bool) (h : d ≤ tg) :
    (calculate_two_stage_dcf ie g tg d n1 n2 nd sh itb tbv up).success = false ∧
    (calculate_two_stage_dcf ie g tg d n1 n2 nd sh itb tbv up).fair_value_per_share = 0 ∧
    ∃ e, calculate_two_stage_dcf ie g tg d n1 n2 nd sh itb tbv up = .failure e := by
  unfold calculate_two_stage_dcf
  by_cases hr : ¬(-1 < g ∧ g < 2 ∧ -(1/2) < tg ∧ tg < 1/2)
  · rw [if_pos hr]
    exact ⟨rfl, rfl, _, rfl⟩
  · rw [if_neg hr, if_pos h]
    exact ⟨rfl, rfl, _, rfl⟩

/-- C1 (amended): for inputs with normalised discount rate above the
normalised terminal growth rate, and whose geometric ratios `x`, `y` both lie
at least `1e-10` away from 1 (so that neither `years`-substitution guard
fires), the closed-form value returned by `calculate_dcf_earnings_based` and
by `calculate_dcf_fcf_based` equals the direct year-by-year discounted sum
exactly — in particular within 0.5.  (When a ratio falls inside the guard
band the two can differ by more than 0.5 for large bases; see the
counterexample.) -/
theorem claim_C1 (eps fcf g1 d tg : ℚ) (n1 n2 : ℕ)
    (hd : pctNorm tg < pctNorm d)
    (hx : ¬ |(1 + stage1Clamped g1) / (1 + pctNorm d) - 1| < 1 / 10 ^ 10)
    (hy : ¬ |(1 + pctNorm tg) / (1 + pctNorm d) - 1| < 1 / 10 ^ 10) :
    (calculate_dcf_earnings_based_pair eps g1 d n1 tg n2).1
      = (calculate_dcf_earnings_based_pair eps g1 d n1 tg n2).2
    ∧ (calculate_dcf_fcf_based_pair fcf g1 d n1 tg n2).1
      = (calculate_dcf_fcf_based_pair fcf g1 d n1 tg n2).2 := by
  unfold calculate_dcf_earnings_based_pair calculate_dcf_fcf_based_pair
  rw [earnDiscount_of_gt hd]
  exact ⟨dcf_core_closed_eq_direct _ _ _ _ _ _ hx hy,
    dcf_core_closed_eq_direct _ _ _ _ _ _ hx hy⟩

/-- C1 witness: the spec's example scenario `eps=6, g1=0.10, d=0.11,
tg=0.04` (both ratios far from 1), instantiating `claim_C1`. -/
theorem claim_C1_witness :
    (calculate_dcf_earnings_based_pair 6 (1/10) (11/100) 10 (1/25) 10).1
      = (calculate_dcf_earnings_based_pair 6 (1/10) (11/100) 10 (1/25) 10).2
    ∧ (calculate_dcf_fcf_based_pair 3 (1/10) (11/100) 10 (1/25) 10).1
      = (calculate_dcf_fcf_based_pair 3 (1/10) (11/100) 10 (1/25) 10).2 :=
  claim_C1 6 3 (1/10) (11/100) (1/25) 10 10
    (by norm_num [pctNorm])
    (by norm_num [stage1Clamped, pctNorm, abs_lt])
    (by norm_num [pctNorm, abs_lt])

/-- C1 counterexample: with `eps = 10^10`, stage-1 growth 5%, discount rate
`4999999999/100000000001` (≈ 0.05, chosen so `x = 1 + 10^-11` falls inside
the `1e-10` guard band) and terminal growth 3% < discount rate, the closed
form and the direct sum differ by more than 0.5, refuting the claim as
stated. -/
theorem claim_C1_counterexample :
    pctNorm (3/100) < pctNorm (4999999999/100000000001) ∧
    ¬ |(calculate_dcf_earnings_based_pair (10 ^ 10) (1/20) (4999999999/100000000001) 10 (3/100) 10).1
        - (calculate_dcf_earnings_based_pair (10 ^ 10) (1/20) (4999999999/100000000001) 10 (3/100) 10).2|
      ≤ 1/2 := by
  have hnorm : pctNorm (3/100 : ℚ) = 3/100 := by norm_num [pctNorm]
  have hdn : pctNorm (4999999999/100000000001 : ℚ) = 4999999999/100000000001 := by
    norm_num [pctNorm]
  refine ⟨by rw [hnorm, hdn]; norm_num, ?_⟩
  have hclamp : stage1Clamped (1/20) = 1/20 := by norm_num [stage1Clamped, pctNorm]
  have hED : earnDiscount (4999999999/100000000001) (3/100) = 4999999999/100000000001 := by
    rw [earnDiscount_of_gt (by rw [hnorm, hdn]; norm_num), hdn]
  have hX : (1 + (1/20 : ℚ)) / (1 + 4999999999/100000000001)
      = 100000000001/100000000000 := by norm_num
  have hx : |(1 + (1/20 : ℚ)) / (1 + 4999999999/100000000001) - 1| < 1 / 10 ^ 10 := by
    rw [hX]; norm_num [abs_lt]
  have hy : ¬ |(1 + (3/100 : ℚ)) / (1 + 4999999999/100000000001) - 1| < 1 / 10 ^ 10 := by
    norm_num [abs_lt]
  have hdiff := dcf_core_eps_diff (10 ^ 10) (1/20) (4999999999/100000000001) (3/100) 10 10 hx hy
  rw [hX] at hdiff
  push_cast at hdiff
  have hlow := powSum_ge_linear (x := 100000000001/100000000000) (by norm_num) 10
  push_cast at hlow
  norm_num at hlow
  unfold calculate_dcf_earnings_based_pair
  rw [hclamp, hED, hnorm, not_le]
  rw [hdiff]
  have h1 : (10 : ℚ) ^ 10 * ((10 : ℚ) - powSum (100000000001/100000000000) 10) ≤ -(11/2) := by
    nlinarith [hlow]
  calc (1/2 : ℚ)
      < -((10 : ℚ) ^ 10 * ((10 : ℚ) - powSum (100000000001/100000000000) 10)) := by linarith
    _ ≤ |(10 : ℚ) ^ 10 * ((10 : ℚ) - powSum (100000000001/100000000000) 10)| := neg_le_abs _

/-- C2: every call of `calculate_two_stage_dcf` with `discount_rate ≤
terminal_growth_rate` returns a failure dictionary: `success = False`,
`fair_value_per_share = 0`, and no valuation fields are computed. -/
theorem claim_C2 (ie g tg d : ℚ) (n1 n2 : ℕ) (nd sh : ℚ)
    (itb : Bool) (tbv : ℚ) (up : Bool) (h : d ≤ tg) :
    (calculate_two_stage_dcf ie g tg d n1 n2 nd sh itb tbv up).success = false ∧
    (calculate_two_stage_dcf ie g tg d n1 n2 nd sh itb tbv up).fair_value_per_share = 0 ∧
    ∃ e, calculate_two_stage_dcf ie g tg d n1 n2 nd sh itb tbv up = .failure e :=
  two_stage_invalid_rate_fails ie g tg d n1 n2 nd sh itb tbv up h

/-- C2 witness: the spec's example scenario
`calculate_two_stage_dcf(1000, 0.10, 0.03, 0.03, ...)` where the discount
rate equals the terminal growth rate. -/
theorem claim_C2_witness :
    (calculate_two_stage_dcf 1000 (1/10) (3/100) (3/100) 10 10 0 100 false 0 false).success
        = false ∧
    (calculate_two_stage_dcf 1000 (1/10) (3/100) (3/100) 10 10 0 100
        false 0 false).fair_value_per_share = 0 ∧
    ∃ e, calculate_two_stage_dcf 1000 (1/10) (3/100) (3/100) 10 10 0 100 false 0 false
        = .failure e :=
  claim_C2 1000 (1/10) (3/100) (3/100) 10 10 0 100 false 0 false (by norm_num)

/-- C3 (amended): when the normalised discount rate is ≤ the normalised
terminal growth rate, `calculate_dcf_earnings_based` proceeds with the
discount rate replaced by `terminal_growth_rate + 2%`; the general two-stage
entry point rejects such inputs with an explicit failure; but
`calculate_dcf_fcf_based` applies NO repair — it proceeds with the
unmodified normalised discount rate, which in general yields a different
value than the repaired rate would. -/
theorem claim_C3 :
    (∀ eps g1 d tg : ℚ, ∀ n1 n2 : ℕ, pctNorm d ≤ pctNorm tg →
      calculate_dcf_earnings_based eps g1 d n1 tg n2
        = (dcf_closed_and_direct eps (stage1Clamped g1) (pctNorm tg + 0.02) (pctNorm tg) n1 n2).1)
    ∧ (∀ fcf g1 d tg : ℚ, ∀ n1 n2 : ℕ,
      calculate_dcf_fcf_based fcf g1 d n1 tg n2
        = (dcf_closed_and_direct fcf (stage1Clamped g1) (pctNorm d) (pctNorm tg) n1 n2).1)
    ∧ calculate_dcf_fcf_based 1 (1/10) (3/100) 10 (1/25) 10
        ≠ calculate_dcf_fcf_based 1 (1/10) (6/100) 10 (1/25) 10
    ∧ (∀ ie g tg d : ℚ, ∀ n1 n2 : ℕ, ∀ nd sh : ℚ, ∀ itb : Bool, ∀ tbv : ℚ, ∀ up : Bool,
      d ≤ tg → (calculate_two_stage_dcf ie g tg d n1 n2 nd sh itb tbv up).success = false) := by
  refine ⟨?_, ?_, ?_, ?_⟩
  · intro eps g1 d tg n1 n2 h
    unfold calculate_dcf_earnings_based calculate_dcf_earnings_based_pair
    rw [earnDiscount_of_le h]
  · intro fcf g1 d tg n1 n2
    rfl
  · unfold calculate_dcf_fcf_based calculate_dcf_fcf_based_pair dcf_closed_and_direct
      geomSumGuarded
    norm_num [stage1Clamped, pctNorm, abs_lt, max_def, min_def]
  · intro ie g tg d n1 n2 nd sh itb tbv up h
    exact (two_stage_invalid_rate_fails ie g tg d n1 n2 nd sh itb tbv up h).1

/-- C3 counterexample: the claim asserts that `calculate_dcf_fcf_based`
repairs `d ≤ tg` inputs by substituting `tg + 2%`; at `d = 0.03`,
`tg = 0.04` the function's value differs from the value at the allegedly
substituted rate `0.06`, so no such substitution happens. -/
theorem claim_C3_counterexample :
    calculate_dcf_fcf_based 1 (1/10) (3/100) 10 (1/25) 10
      ≠ calculate_dcf_fcf_based 1 (1/10) (6/100) 10 (1/25) 10 := by
  unfold calculate_dcf_fcf_based calculate_dcf_fcf_based_pair dcf_closed_and_direct
    geomSumGuarded
  norm_num [stage1Clamped, pctNorm, abs_lt, max_def, min_def]

theorem powSum_nonneg {x : ℚ} (hx : 0 ≤ x) (n : ℕ) : 0 ≤ powSum x n := by
  induction n with
  | zero => simp [powSum]
  | succ n ih => exact add_nonneg ih (pow_nonneg hx _)

theorem powSum_le_powSum {x y : ℚ} (hx : 0 ≤ x) (hxy : x ≤ y) (n : ℕ) :
    powSum x n ≤ powSum y n := by
  induction n with
  | zero => simp [powSum]
  | succ n ih => exact add_le_add ih (pow_le_pow_left hx hxy _)

theorem powSum_lt_powSum {x y : ℚ} (hx : 0 ≤ x) (hxy : x < y) {n : ℕ} (hn : 1 ≤ n) :
    powSum x n < powSum y n := by
  obtain ⟨m, rfl⟩ := Nat.exists_eq_add_of_le hn
  rw [Nat.add_comm 1 m, powSum_succ, powSum_succ]
  exact add_lt_add_of_le_of_lt (powSum_le_powSum hx hxy.le m)
    (pow_lt_pow_left hxy hx (Nat.succ_ne_zero m))

/-- The generic-branch growth-stage expression is `ie * powSum x n`. -/
theorem growth_else_eq {x : ℚ} (hx : x ≠ 1) (ie : ℚ) (n : ℕ) :
    ie * x * (1 - x ^ n) / (1 - x) = ie * powSum x n := by
  rw [powSum_eq_geom hx]
  ring

/-- Opening lemma: on validated inputs `calculate_two_stage_dcf` returns the
success dictionary, whose `fair_value_per_share` is the displayed
expression. -/
theorem two_stage_fair_of_valid (ie g tg d : ℚ) (n1 n2 : ℕ) (nd sh : ℚ)
    (itb : Bool) (tbv : ℚ) (up : Bool)
    (h1 : -1 < g) (h2 : g < 2) (h3 : -(1/2) < tg) (h4 : tg < 1/2) (h5 : tg < d) :
    (calculate_two_stage_dcf ie g tg d n1 n2 nd sh itb tbv up).fair_value_per_share
      = max ((if itb ∧ tbv > 0 then
                ((if (1 + g) / (1 + d) = 1 then ie * n1 / (1 + d)
                  else ie * ((1 + g) / (1 + d)) * (1 - ((1 + g) / (1 + d)) ^ n1)
                    / (1 - (1 + g) / (1 + d)))
                 + (if up then ie * (1 + g) ^ n1 * (1 + tg) / (d - tg) / (1 + d) ^ n1
                    else directTerminalSum (ie * (1 + g) ^ n1) tg d n1 n2)) + tbv
              else
                ((if (1 + g) / (1 + d) = 1 then ie * n1 / (1 + d)
                  else ie * ((1 + g) / (1 + d)) * (1 - ((1 + g) / (1 + d)) ^ n1)
                    / (1 - (1 + g) / (1 + d)))
                 + (if up then ie * (1 + g) ^ n1 * (1 + tg) / (d - tg) / (1 + d) ^ n1
                    else directTerminalSum (ie * (1 + g) ^ n1) tg d n1 n2))) - nd) 0
        / (if sh ≤ 0 then 1 else sh) := by
  unfold calculate_two_stage_dcf
  rw [if_neg (not_not_intro ⟨h1, h2, h3, h4⟩), if_neg (not_le.mpr h5)]
  rfl

theorem shares_denominator_pos (sh : ℚ) : 0 < (if sh ≤ 0 then (1 : ℚ) else sh) := by
  split_ifs with h
  · norm_num
  · exact lt_of_not_le h

theorem pos_of_fair_pos {e s : ℚ} (hs : 0 < s) (h : 0 < max e 0 / s) : 0 < e := by
  by_contra he
  push_neg at he
  rw [max_eq_right he] at h
  simp at h

theorem max_div_lt_max_div {e1 e2 s : ℚ} (h : e1 < e2) (he2 : 0 < e2) (hs : 0 < s) :
    max e1 0 / s < max e2 0 / s := by
  rw [max_eq_left he2.le]
  exact (div_lt_div_right hs).mpr (max_lt h he2)

/-- Gordon-Growth terminal value is strictly increasing in the terminal
growth rate. -/
theorem perp_term_lt_tg {ie g d tg1 tg2 : ℚ} (n1 : ℕ) (hie : 0 < ie) (hg : -1 < g)
    (h1 : -(1/2) < tg1) (hlt : tg1 < tg2) (hd : tg2 < d) :
    ie * (1 + g) ^ n1 * (1 + tg1) / (d - tg1) / (1 + d) ^ n1
      < ie * (1 + g) ^ n1 * (1 + tg2) / (d - tg2) / (1 + d) ^ n1 := by
  have hcf : 0 < ie * (1 + g) ^ n1 := mul_pos hie (pow_pos (by linarith) _)
  have hdpow : 0 < (1 + d) ^ n1 := pow_pos (by linarith) _
  apply div_lt_div_of_pos_right _ hdpow
  rw [div_lt_div_iff (by linarith) (by linarith)]
  nlinarith [mul_pos (sub_pos.mpr hlt) (show (0:ℚ) < d + 1 by linarith)]

/-- Finite-horizon terminal value is strictly increasing in the terminal
growth rate. -/
theorem finite_term_lt_tg {cf d tg1 tg2 : ℚ} (n1 : ℕ) {n2 : ℕ} (hcf : 0 < cf)
    (h1 : -(1/2) < tg1) (hlt : tg1 < tg2) (hd : tg2 < d) (hn2 : 1 ≤ n2) :
    directTerminalSum cf tg1 d n1 n2 < directTerminalSum cf tg2 d n1 n2 := by
  rw [directTerminalSum_eq, directTerminalSum_eq]
  have hd1 : (0:ℚ) < 1 + d := by linarith
  have hc : 0 < cf * (1 / (1 + d) ^ n1) := by positivity
  apply mul_lt_mul_of_pos_left _ hc
  apply powSum_lt_powSum _ _ hn2
  · exact div_nonneg (by linarith) hd1.le
  · exact (div_lt_div_right hd1).mpr (by linarith)

/-- Gordon-Growth terminal value is strictly decreasing in the discount
rate. -/
theorem perp_term_lt_d {ie g tg d1 d2 : ℚ} (n1 : ℕ) (hie : 0 < ie) (hg : -1 < g)
    (h3 : -(1/2) < tg) (hd1 : tg < d1) (hlt : d1 < d2) :
    ie * (1 + g) ^ n1 * (1 + tg) / (d2 - tg) / (1 + d2) ^ n1
      < ie * (1 + g) ^ n1 * (1 + tg) / (d1 - tg) / (1 + d1) ^ n1 := by
  have hA : 0 < ie * (1 + g) ^ n1 * (1 + tg) :=
    mul_pos (mul_pos hie (pow_pos (by linarith) _)) (by linarith)
  rw [div_div, div_div]
  apply div_lt_div_of_pos_left hA
  · exact mul_pos (by linarith) (pow_pos (by linarith) _)
  · have hp : (1 + d1) ^ n1 ≤ (1 + d2) ^ n1 := pow_le_pow_left (by linarith) (by linarith) _
    have hp1 : (0:ℚ) < (1 + d1) ^ n1 := pow_pos (by linarith) _
    nlinarith

/-- Finite-horizon terminal value is strictly decreasing in the discount
rate. -/
theorem finite_term_lt_d {cf tg d1 d2 : ℚ} (n1 : ℕ) {n2 : ℕ} (hcf : 0 < cf)
    (h3 : -(1/2) < tg) (hd1 : tg < d1) (hlt : d1 < d2) (hn2 : 1 ≤ n2) :
    directTerminalSum cf tg d2 n1 n2 < directTerminalSum cf tg d1 n1 n2 := by
  rw [directTerminalSum_eq, directTerminalSum_eq]
  have hden1 : (0:ℚ) < 1 + d1 := by linarith
  have hden2 : (0:ℚ) < 1 + d2 := by linarith
  have htg : (0:ℚ) < 1 + tg := by linarith
  have hS : powSum ((1 + tg) / (1 + d2)) n2 < powSum ((1 + tg) / (1 + d1)) n2 := by
    apply powSum_lt_powSum _ _ hn2
    · exact div_nonneg htg.le hden2.le
    · exact div_lt_div_of_pos_left htg hden1 (by linarith)
  have hf : (1 : ℚ) / (1 + d2) ^ n1 ≤ 1 / (1 + d1) ^ n1 := by
    apply one_div_le_one_div_of_le (by positivity)
    exact pow_le_pow_left hden1.le (by linarith) _
  have hS1 : 0 ≤ powSum ((1 + tg) / (1 + d1)) n2 := powSum_nonneg (by positivity) _
  calc cf * (1 / (1 + d2) ^ n1) * powSum ((1 + tg) / (1 + d2)) n2
      < cf * (1 / (1 + d2) ^ n1) * powSum ((1 + tg) / (1 + d1)) n2 := by
        apply mul_lt_mul_of_pos_left hS (by positivity)
    _ ≤ cf * (1 / (1 + d1) ^ n1) * powSum ((1 + tg) / (1 + d1)) n2 := by
        apply mul_le_mul_of_nonneg_right _ hS1
        exact mul_le_mul_of_nonneg_left hf hcf.le

/-- C6 (amended): with all other parameters fixed and valid rate
combinations, `fair_value_per_share` of `calculate_two_stage_dcf` is
strictly increasing in `terminal_growth_rate` provided `initial_earnings >
0`, the terminal stage is non-trivial, and the equity value at the larger
rate is positive; and strictly decreasing in `discount_rate` provided
additionally `growth_years ≥ 1`, neither discount rate equals the growth
rate (the `x == 1` special branch is discontinuous), and the equity value at
the smaller discount rate is positive.  Strictness genuinely fails outside
these provisos (equity clamped at 0, zero/negative earnings, or a discount
rate crossing the `x == 1` branch; see the counterexample). -/
theorem claim_C6 :
    (∀ ie g tg1 tg2 d : ℚ, ∀ n1 n2 : ℕ, ∀ nd sh : ℚ, ∀ itb : Bool, ∀ tbv : ℚ, ∀ up : Bool,
      0 < ie → -1 < g → g < 2 → -(1/2) < tg1 → tg1 < tg2 → tg2 < 1/2 → tg2 < d →
      (up = true ∨ 1 ≤ n2) →
      0 < (calculate_two_stage_dcf ie g tg2 d n1 n2 nd sh itb tbv up).fair_value_per_share →
      (calculate_two_stage_dcf ie g tg1 d n1 n2 nd sh itb tbv up).fair_value_per_share
        < (calculate_two_stage_dcf ie g tg2 d n1 n2 nd sh itb tbv up).fair_value_per_share)
    ∧ (∀ ie g tg d1 d2 : ℚ, ∀ n1 n2 : ℕ, ∀ nd sh : ℚ, ∀ itb : Bool, ∀ tbv : ℚ, ∀ up : Bool,
      0 < ie → -1 < g → g < 2 → -(1/2) < tg → tg < 1/2 → tg < d1 → d1 < d2 →
      g ≠ d1 → g ≠ d2 → 1 ≤ n1 → (up = true ∨ 1 ≤ n2) →
      0 < (calculate_two_stage_dcf ie g tg d1 n1 n2 nd sh itb tbv up).fair_value_per_share →
      (calculate_two_stage_dcf ie g tg d2 n1 n2 nd sh itb tbv up).fair_value_per_share
        < (calculate_two_stage_dcf ie g tg d1 n1 n2 nd sh itb tbv up).fair_value_per_share) := by
  constructor
  · intro ie g tg1 tg2 d n1 n2 nd sh itb tbv up hie hg1 hg2 htg1 hlt htg2 hd hterm hpos
    rw [two_stage_fair_of_valid ie g tg1 d n1 n2 nd sh itb tbv up hg1 hg2 htg1
      (by linarith) (by linarith)]
    rw [two_stage_fair_of_valid ie g tg2 d n1 n2 nd sh itb tbv up hg1 hg2
      (by linarith) htg2 hd] at hpos ⊢
    have hspos := shares_denominator_pos sh
    have hT : (if up then ie * (1 + g) ^ n1 * (1 + tg1) / (d - tg1) / (1 + d) ^ n1
          else directTerminalSum (ie * (1 + g) ^ n1) tg1 d n1 n2)
        < (if up then ie * (1 + g) ^ n1 * (1 + tg2) / (d - tg2) / (1 + d) ^ n1
          else directTerminalSum (ie * (1 + g) ^ n1) tg2 d n1 n2) := by
      cases up with
      | false =>
        have hn2 : 1 ≤ n2 := hterm.resolve_left (by simp)
        rw [if_neg Bool.false_ne_true, if_neg Bool.false_ne_true]
        exact finite_term_lt_tg n1 (mul_pos hie (pow_pos (by linarith) _)) htg1 hlt hd hn2
      | true =>
        rw [if_pos rfl, if_pos rfl]
        exact perp_term_lt_tg n1 hie hg1 htg1 hlt hd
    have he := pos_of_fair_pos hspos hpos
    apply max_div_lt_max_div _ he hspos
    by_cases htb : itb = true ∧ tbv > 0
    · rw [if_pos htb, if_pos htb]
      linarith
    · rw [if_neg htb, if_neg htb]
      linarith
  · intro ie g tg d1 d2 n1 n2 nd sh itb tbv up hie hg1 hg2 htg1 htg2 hd1 hlt hne1 hne2
      hn1 hterm hpos
    rw [two_stage_fair_of_valid ie g tg d2 n1 n2 nd sh itb tbv up hg1 hg2 htg1 htg2
      (by linarith)]
    rw [two_stage_fair_of_valid ie g tg d1 n1 n2 nd sh itb tbv up hg1 hg2 htg1 htg2
      hd1] at hpos ⊢
    have hspos := shares_denominator_pos sh
    have hx1ne : (1 + g) / (1 + d1) ≠ 1 := by
      intro h
      rw [div_eq_one_iff_eq (ne_of_gt (by linarith : (0:ℚ) < 1 + d1))] at h
      exact hne1 (by linarith)
    have hx2ne : (1 + g) / (1 + d2) ≠ 1 := by
      intro h
      rw [div_eq_one_iff_eq (ne_of_gt (by linarith : (0:ℚ) < 1 + d2))] at h
      exact hne2 (by linarith)
    have hG : (if (1 + g) / (1 + d2) = 1 then ie * n1 / (1 + d2)
          else ie * ((1 + g) / (1 + d2)) * (1 - ((1 + g) / (1 + d2)) ^ n1)
            / (1 - (1 + g) / (1 + d2)))
        < (if (1 + g) / (1 + d1) = 1 then ie * n1 / (1 + d1)
          else ie * ((1 + g) / (1 + d1)) * (1 - ((1 + g) / (1 + d1)) ^ n1)
            / (1 - (1 + g) / (1 + d1))) := by
      rw [if_neg hx1ne, if_neg hx2ne, growth_else_eq hx1ne, growth_else_eq hx2ne]
      apply mul_lt_mul_of_pos_left _ hie
      apply powSum_lt_powSum _ _ hn1
      · exact div_nonneg (by linarith) (by linarith)
      · exact div_lt_div_of_pos_left (by linarith) (by linarith) (by linarith)
    have hT : (if up then ie * (1 + g) ^ n1 * (1 + tg) / (d2 - tg) / (1 + d2) ^ n1
          else directTerminalSum (ie * (1 + g) ^ n1) tg d2 n1 n2)
        < (if up then ie * (1 + g) ^ n1 * (1 + tg) / (d1 - tg) / (1 + d1) ^ n1
          else directTerminalSum (ie * (1 + g) ^ n1) tg d1 n1 n2) := by
      cases up with
      | false =>
        have hn2 : 1 ≤ n2 := hterm.resolve_left (by simp)
        rw [if_neg Bool.false_ne_true, if_neg Bool.false_ne_true]
        exact finite_term_lt_d n1 (mul_pos hie (pow_pos (by linarith) _)) htg1 hd1 hlt hn2
      | true =>
        rw [if_pos rfl, if_pos rfl]
        exact perp_term_lt_d n1 hie hg1 htg1 hd1 hlt
    have he := pos_of_fair_pos hspos hpos
    apply max_div_lt_max_div _ he hspos
    by_cases htb : itb = true ∧ tbv > 0
    · rw [if_pos htb, if_pos htb]
      linarith
    · rw [if_neg htb, if_neg htb]
      linarith

/-- C6 witness: a concrete valid scenario instantiating both monotonicity
directions of the amended claim (perpetuity terminal value, positive equity,
`g ∉ {d1, d2}`). -/
theorem claim_C6_witness :
    (calculate_two_stage_dcf 1000 (1/10) (1/50) (8/100) 5 5 0 100 false 0 true).fair_value_per_share
      < (calculate_two_stage_dcf 1000 (1/10) (3/100) (8/100) 5 5 0 100 false 0 true).fair_value_per_share
    ∧ (calculate_two_stage_dcf 1000 (1/10) (3/100) (9/100) 5 5 0 100 false 0 true).fair_value_per_share
      < (calculate_two_stage_dcf 1000 (1/10) (3/100) (8/100) 5 5 0 100 false 0 true).fair_value_per_share := by
  have hpos : 0 < (calculate_two_stage_dcf 1000 (1/10) (3/100) (8/100) 5 5 0 100
      false 0 true).fair_value_per_share := by
    rw [two_stage_fair_of_valid 1000 (1/10) (3/100) (8/100) 5 5 0 100 false 0 true
      (by norm_num) (by norm_num) (by norm_num) (by norm_num) (by norm_num)]
    norm_num [directTerminalSum, max_def]
  exact ⟨claim_C6.1 1000 (1/10) (1/50) (3/100) (8/100) 5 5 0 100 false 0 true
      (by norm_num) (by norm_num) (by norm_num) (by norm_num) (by norm_num) (by norm_num)
      (by norm_num) (Or.inl rfl) hpos,
    claim_C6.2 1000 (1/10) (3/100) (8/100) (9/100) 5 5 0 100 false 0 true
      (by norm_num) (by norm_num) (by norm_num) (by norm_num) (by norm_num) (by norm_num)
      (by norm_num) (by norm_num) (by norm_num) (by norm_num) (Or.inl rfl) hpos⟩

/-- C6 counterexample: at `g = d1 = 0.10` the growth stage hits the
`x == 1` special branch (which divides the linear form by `1+d`), producing
a *lower* value than the nearby rate `d2 = 0.101`, so `fair_value_per_share`
is not strictly decreasing in the discount rate even on valid inputs with
positive earnings and positive equity. -/
theorem claim_C6_counterexample :
    (3/100 : ℚ) < 1/10 ∧ (1/10 : ℚ) < 101/1000 ∧
    (calculate_two_stage_dcf 1000 (1/10) (3/100) (1/10) 10 10 0 100 false 0 true).fair_value_per_share
      < (calculate_two_stage_dcf 1000 (1/10) (3/100) (101/1000) 10 10 0 100 false 0 true).fair_value_per_share := by
  refine ⟨by norm_num, by norm_num, ?_⟩
  rw [two_stage_fair_of_valid 1000 (1/10) (3/100) (1/10) 10 10 0 100 false 0 true
    (by norm_num) (by norm_num) (by norm_num) (by norm_num) (by norm_num)]
  rw [two_stage_fair_of_valid 1000 (1/10) (3/100) (101/1000) 10 10 0 100 false 0 true
    (by norm_num) (by norm_num) (by norm_num) (by norm_num) (by norm_num)]
  norm_num [max_def]

theorem safeGetLoop_eq (df : DataFrame) (c : ℕ) (names : List String) :
    safeGetLoop df c names = (firstNonzeroCell df names c).getD 0 := by
  induction names with
  | nil => rfl
  | cons n rest ih =>
    rw [safeGetLoop, firstNonzeroCell, List.findSome?_cons]
    cases hc : df.cell n c with
    | none => rw [ih, firstNonzeroCell]
    | some v =>
      by_cases hv : v = 0
      · simp only [hv, ne_eq, not_true_eq_false, if_false, ih, firstNonzeroCell]
      · simp only [ne_eq, hv, not_false_eq_true, if_true, Option.getD_some]

theorem safeGetMultiLoop_eq (df : DataFrame) (c : ℕ) (names : List String) :
    safeGetMultiLoop df c names = names.findSome? (fun n => df.cell n c) := by
  induction names with
  | nil => rfl
  | cons n rest ih =>
    rw [safeGetMultiLoop, List.findSome?_cons]
    cases hc : df.cell n c with
    | none => exact ih
    | some v => rfl

/-- C8 (amended): the utils extractor lookups return the value of the first
candidate label with a present, non-null AND NON-ZERO entry (zero entries
are skipped like missing ones), with sentinel 0 when no candidate qualifies
or the table/column is absent; the financials.py variant instead returns the
first present non-null value (zero included) and signals absence with
`None`, not 0.  None of them raises: each is a total function of its
inputs. -/
theorem claim_C8 :
    (∀ df names c, safe_get df names c
        = if df.emptyDf = true ∨ df.ncols ≤ c then 0 else (firstNonzeroCell df names c).getD 0)
    ∧ (∀ df names c, safe_get_multi df names c
        = if df.emptyDf = true ∨ df.ncols ≤ c then 0 else (firstNonzeroCell df names c).getD 0)
    ∧ (∀ df names c, safe_get_multi_financials (some df) names c
        = if df.emptyDf = true ∨ df.ncols ≤ c then none
          else names.findSome? fun n => df.cell n c)
    ∧ (∀ names c, safe_get_multi_financials none names c = none) := by
  refine ⟨?_, ?_, ?_, fun names c => rfl⟩
  · intro df names c
    rw [safe_get]
    split
    · rfl
    · exact safeGetLoop_eq df c names
  · intro df names c
    rw [safe_get_multi]
    split
    · rfl
    · exact safeGetLoop_eq df c names
  · intro df names c
    rw [safe_get_multi_financials]
    split
    · rfl
    · exact safeGetMultiLoop_eq df c names

/-- C8 counterexample: with row "A" present and non-null but zero and row
"B" equal to 5, `safe_get` skips "A" and returns 5, while the claim's
first-non-null rule demands 0; and the financials.py `safe_get_multi`
returns `None`, not the claimed sentinel 0, when no candidate matches. -/
theorem claim_C8_counterexample :
    safe_get ⟨1, [("A", [some 0]), ("B", [some 5])]⟩ ["A", "B"] 0 = 5
    ∧ claimedExtractorLookup ⟨1, [("A", [some 0]), ("B", [some 5])]⟩ ["A", "B"] 0 = 0
    ∧ safe_get_multi_financials (some ⟨1, [("A", [some 0])]⟩) ["Z"] 0 = none := by
  refine ⟨?_, ?_, ?_⟩ <;>
    norm_num [safe_get, claimedExtractorLookup, safe_get_multi_financials, safeGetLoop,
      safeGetMultiLoop, DataFrame.cell, DataFrame.emptyDf, List.find?, List.findSome?,
      show (("A" : String) == "B") = false from rfl,
      show (("B" : String) == "B") = true from rfl,
      show (("A" : String) == "A") = true from rfl,
      show (("A" : String) == "Z") = false from rfl]

theorem waccFinish_weights_sum (a b c t e w q v : ℚ) :
    (waccFinish a b c t e w q v).weight_of_debt
      + (waccFinish a b c t e w q v).weight_of_equity = 1 := by
  simp only [waccFinish]
  ring

theorem waccFinish_cod_bounds (a b c t e w q v : ℚ) :
    (waccFinish a b c t e w q v).risk_free_rate + 0.01 ≤ (waccFinish a b c t e w q v).cost_of_debt
    ∧ (waccFinish a b c t e w q v).cost_of_debt
        ≤ max 0.20 ((waccFinish a b c t e w q v).risk_free_rate + 0.01) := by
  simp only [waccFinish]
  exact ⟨le_max_right _ _, max_le_max (min_le_right _ _) le_rfl⟩

theorem waccFinish_wacc_bounds (a b c t e w q v : ℚ) :
    (waccFinish a b c t e w q v).risk_free_rate + 0.02 ≤ (waccFinish a b c t e w q v).wacc
    ∧ (waccFinish a b c t e w q v).wacc
        ≤ max 0.30 ((waccFinish a b c t e w q v).risk_free_rate + 0.02) := by
  simp only [waccFinish]
  exact ⟨le_max_right _ _, max_le_max (min_le_right _ _) le_rfl⟩

/-- Every components dictionary produced by `calculate_wacc` factors through
`waccFinish`. -/
theorem calculate_wacc_components_shape {financials : Financials} {rf mrp : ℚ}
    {ci : Option CustomInputs} {r : WaccResult}
    (h : calculate_wacc financials rf mrp ci = some (.components r)) :
    ∃ a b c t e w q v, r = waccFinish a b c t e w q v := by
  unfold calculate_wacc at h
  split at h
  · simp at h
  · simp only [Option.map_eq_some'] at h
    obtain ⟨t, -, h2⟩ := h
    injection h2 with h3
    exact ⟨_, _, _, _, _, _, _, _, h3.symm⟩

/-- C4 (amended): every components dictionary returned by `calculate_wacc`
has `cost_of_debt ∈ [rf + 1%, max(20%, rf + 1%)]` and
`wacc ∈ [rf + 2%, max(30%, rf + 2%)]`, where `rf` is the risk-free rate
recorded in the output.  The claimed fixed caps 20% and 30% only apply when
`rf ≤ 19%` resp. `rf ≤ 28%`; for larger risk-free rates the lower clamp wins
(see the counterexample). -/
theorem claim_C4 (financials : Financials) (rf mrp : ℚ) (ci : Option CustomInputs)
    (r : WaccResult) (h : calculate_wacc financials rf mrp ci = some (.components r)) :
    (r.risk_free_rate + 0.01 ≤ r.cost_of_debt
      ∧ r.cost_of_debt ≤ max 0.20 (r.risk_free_rate + 0.01))
    ∧ (r.risk_free_rate + 0.02 ≤ r.wacc
      ∧ r.wacc ≤ max 0.30 (r.risk_free_rate + 0.02)) := by
  obtain ⟨a, b, c, t, e, w, q, v, rfl⟩ := calculate_wacc_components_shape h
  exact ⟨waccFinish_cod_bounds a b c t e w q v, waccFinish_wacc_bounds a b c t e w q v⟩

/-- Evaluation of `calculate_wacc` on empty financials at `rf = 3%`,
`mrp = 6%`, no overrides. -/
theorem calculate_wacc_example_eval :
    calculate_wacc {} (3/100) (6/100) none = some (.components
      { wacc := 1497/20000, cost_of_equity := 9/100, cost_of_debt := 1/20,
        tax_rate := 21/100, after_tax_cost_of_debt := 79/2000,
        weight_of_equity := 7/10, weight_of_debt := 3/10, beta := 1,
        risk_free_rate := 3/100, market_risk_premium := 3/50,
        wacc_equity_component := 63/10, wacc_debt_component := 237/200,
        average_debt := 0 }) := by
  unfold calculate_wacc waccFinish
  norm_num [pctNorm, max_def, min_def]

/-- C4 witness: the bounds at the concrete evaluation
`calculate_wacc({}, 0.03, 0.06)`. -/
theorem claim_C4_witness :
    ((3/100 : ℚ) + 0.01 ≤ 1/20 ∧ (1/20 : ℚ) ≤ max 0.20 ((3/100 : ℚ) + 0.01))
    ∧ ((3/100 : ℚ) + 0.02 ≤ 1497/20000
      ∧ (1497/20000 : ℚ) ≤ max 0.30 ((3/100 : ℚ) + 0.02)) :=
  claim_C4 {} (3/100) (6/100) none _ calculate_wacc_example_eval

/-- C4 counterexample: at a normalised (decimal) risk-free rate of 50% with
empty financials and no overrides, the returned `cost_of_debt` is 51% > 20%
and the returned `wacc` is 52% > 30%: both claimed upper caps fail. -/
theorem claim_C4_counterexample :
    calculate_wacc {} (1/2) (6/100) none = some (.components
      { wacc := 13/25, cost_of_equity := 14/25, cost_of_debt := 51/100,
        tax_rate := 21/100, after_tax_cost_of_debt := 4029/10000,
        weight_of_equity := 7/10, weight_of_debt := 3/10, beta := 1,
        risk_free_rate := 1/2, market_risk_premium := 3/50,
        wacc_equity_component := 196/5, wacc_debt_component := 12087/1000,
        average_debt := 0 })
    ∧ ¬ ((51/100 : ℚ) ≤ 0.20) ∧ ¬ ((13/25 : ℚ) ≤ 0.30) := by
  refine ⟨?_, by norm_num, by norm_num⟩
  unfold calculate_wacc waccFinish
  norm_num [pctNorm, max_def, min_def]

/-- C5: every components dictionary returned by `calculate_wacc` has
`weight_of_debt + weight_of_equity = 1` exactly. -/
theorem claim_C5 (financials : Financials) (rf mrp : ℚ) (ci : Option CustomInputs)
    (r : WaccResult) (h : calculate_wacc financials rf mrp ci = some (.components r)) :
    r.weight_of_debt + r.weight_of_equity = 1 := by
  obtain ⟨a, b, c, t, e, w, q, v, rfl⟩ := calculate_wacc_components_shape h
  exact waccFinish_weights_sum a b c t e w q v

/-- C5 witness: the weights at the concrete evaluation
`calculate_wacc({}, 0.03, 0.06)`. -/
theorem claim_C5_witness : (3/10 : ℚ) + 7/10 = 1 :=
  claim_C5 {} (3/100) (6/100) none _ calculate_wacc_example_eval

/-- With no custom inputs, the cost of equity is the CAPM value floored at
`rf + 2%`, using `financials["beta"]` with default 1.0. -/
theorem calculate_wacc_default_coe {financials : Financials} {rf mrp : ℚ} {r : WaccResult}
    (h : calculate_wacc financials rf mrp none = some (.components r)) :
    r.cost_of_equity
      = max (pctNorm rf + financials.beta.getD 1 * pctNorm mrp) (pctNorm rf + 0.02)
    ∧ r.beta = financials.beta.getD 1 := by
  unfold calculate_wacc at h
  simp only [Option.map_none', Option.getD_none, Bool.false_eq_true, if_false,
    Option.bind_none, if_neg, Option.map_eq_some'] at h
  obtain ⟨t, -, h2⟩ := h
  injection h2 with h3
  rw [← h3]
  exact ⟨rfl, rfl⟩

/-- C9 (amended): beta defaults to 1.0 when absent from every source; a beta
below 0.1 is clamped to 0.1; but a beta above 5.0 is RESET to the default
1.0 rather than clamped to 5.0; in-band betas pass through unchanged; and
(absent overrides) the cost of equity used by `calculate_wacc` is
`max(rf + beta × mrp, rf + 2%)`. -/
theorem claim_C9 :
    (resolveBeta {} = 1)
    ∧ (∀ info : BetaInfo, ∀ b : ℚ, info.beta = some b → b < 1/10 → resolveBeta info = 1/10)
    ∧ (∀ info : BetaInfo, ∀ b : ℚ, info.beta = some b → 5 < b → resolveBeta info = 1)
    ∧ (∀ info : BetaInfo, ∀ b : ℚ, info.beta = some b → 1/10 ≤ b → b ≤ 5 → resolveBeta info = b)
    ∧ (∀ financials : Financials, ∀ rf mrp : ℚ, ∀ r : WaccResult,
        calculate_wacc financials rf mrp none = some (.components r) →
        r.cost_of_equity
          = max (pctNorm rf + financials.beta.getD 1 * pctNorm mrp) (pctNorm rf + 0.02)) := by
  refine ⟨by norm_num [resolveBeta], ?_, ?_, ?_, ?_⟩
  · intro info b hb hlt
    rw [resolveBeta, hb]
    rw [if_neg (by simp only; linarith), if_pos (by simpa using hlt)]
  · intro info b hb hgt
    rw [resolveBeta, hb]
    rw [if_pos (by simpa using hgt)]
  · intro info b hb h1 h2
    rw [resolveBeta, hb]
    rw [if_neg (by simp only; linarith), if_neg (by simp only; linarith)]
  · intro financials rf mrp r h
    exact (calculate_wacc_default_coe h).1

/-- C9 counterexample: a provider beta of 6.0 (outside the band) is not
clamped to 5.0 — it is reset to the default 1.0. -/
theorem claim_C9_counterexample :
    resolveBeta { beta := some 6 } = 1 ∧ (1 : ℚ) ≠ 5 := by
  constructor
  · norm_num [resolveBeta]
  · norm_num

/-- C9 witness: low-band clamping, pass-through, and the CAPM cost of equity
at the concrete evaluation `calculate_wacc({}, 0.03, 0.06)`. -/
theorem claim_C9_witness :
    resolveBeta { beta := some (1/20) } = 1/10
    ∧ resolveBeta { beta := some 2 } = 2
    ∧ (9/100 : ℚ) = max (pctNorm (3/100) + ((none : Option ℚ).getD 1) * pctNorm (6/100))
        (pctNorm (3/100) + 0.02) :=
  ⟨claim_C9.2.1 _ (1/20) rfl (by norm_num),
   claim_C9.2.2.2.1 _ 2 rfl (by norm_num) (by norm_num),
   claim_C9.2.2.2.2 {} (3/100) (6/100) _ calculate_wacc_example_eval⟩

/-- C10: with `use_custom_wacc` set, `calculate_wacc` ignores the financial
data entirely and returns the supplied custom WACC as a bare number (divided
by 100 when it exceeds 1) instead of a components dictionary; no derivation
or clamping logic touches it. -/
theorem claim_C10 (financials : Financials) (rf mrp : ℚ) (ci : CustomInputs)
    (h : ci.use_custom_wacc = true) :
    calculate_wacc financials rf mrp (some ci)
      = some (.scalar (if ci.wacc.getD 0.09 > 1 then ci.wacc.getD 0.09 / 100
          else ci.wacc.getD 0.09)) := by
  unfold calculate_wacc
  rw [if_pos (by simp [h])]
  rfl

/-- C10 witness: a custom WACC of 4.5 (percentage form) is returned as the
bare number 0.045. -/
theorem claim_C10_witness :
    calculate_wacc {} (3/100) (6/100) (some { use_custom_wacc := true, wacc := some (9/2) })
      = some (.scalar (9/200)) := by
  rw [claim_C10 {} (3/100) (6/100) _ rfl]
  norm_num

theorem mem_insertSorted {a x : ℚ} {l : List ℚ} :
    x ∈ insertSorted a l ↔ x = a ∨ x ∈ l := by
  induction l with
  | nil => simp [insertSorted]
  | cons b t ih =>
    rw [insertSorted]
    split
    · simp [List.mem_cons]
    · split
      · next h2 => subst h2; simp [List.mem_cons]
      · simp [List.mem_cons, ih]; tauto

theorem sorted_insertSorted {a : ℚ} {l : List ℚ} (h : l.Sorted (· < ·)) :
    (insertSorted a l).Sorted (· < ·) := by
  induction l with
  | nil => simp [insertSorted]
  | cons b t ih =>
    rw [List.sorted_cons] at h
    rw [insertSorted]
    split
    · next hab =>
      refine List.sorted_cons.mpr ⟨?_, List.sorted_cons.mpr h⟩
      intro x hx
      rcases List.mem_cons.mp hx with rfl | hx
      · exact hab
      · exact lt_trans hab (h.1 x hx)
    · split
      · exact List.sorted_cons.mpr h
      · next hab h2 =>
        refine List.sorted_cons.mpr ⟨?_, ih h.2⟩
        intro x hx
        rcases mem_insertSorted.mp hx with rfl | hx
        · exact lt_of_le_of_ne (not_lt.mp hab) (Ne.symm h2)
        · exact h.1 x hx

theorem foldl_insertSorted_sorted (l : List ℚ) (acc : List ℚ) (hacc : acc.Sorted (· < ·)) :
    (l.foldl (fun acc x => insertSorted x acc) acc).Sorted (· < ·) := by
  induction l generalizing acc with
  | nil => exact hacc
  | cons b t ih => exact ih _ (sorted_insertSorted hacc)

theorem sortDedup_sorted (l : List ℚ) : (sortDedup l).Sorted (· < ·) :=
  foldl_insertSorted_sorted l [] (by simp)

theorem mem_foldl_insertSorted (l : List ℚ) (acc : List ℚ) (x : ℚ) :
    x ∈ l.foldl (fun acc y => insertSorted y acc) acc ↔ x ∈ acc ∨ x ∈ l := by
  induction l generalizing acc with
  | nil => simp
  | cons b t ih =>
    rw [List.foldl_cons, ih]
    rw [mem_insertSorted]
    simp [List.mem_cons]
    tauto

theorem mem_sortDedup {l : List ℚ} {x : ℚ} : x ∈ sortDedup l ↔ x ∈ l := by
  rw [sortDedup, mem_foldl_insertSorted]
  simp

theorem sorted_getD_lt {l : List ℚ} (h : l.Sorted (· < ·)) {i j : ℕ} (hij : i < j)
    (hj : j < l.length) : l.getD i 0 < l.getD j 0 := by
  rw [List.getD_eq_getElem l 0 (lt_trans hij hj), List.getD_eq_getElem l 0 hj]
  exact List.pairwise_iff_getElem.mp h i j (lt_trans hij hj) hj hij

theorem sorted_getD_le {l : List ℚ} (h : l.Sorted (· < ·)) {i j : ℕ} (hij : i ≤ j)
    (hj : j < l.length) : l.getD i 0 ≤ l.getD j 0 := by
  rcases lt_or_eq_of_le hij with hlt | rfl
  · exact (sorted_getD_lt h hlt hj).le
  · exact le_rfl

theorem getD_mem {l : List ℚ} {i : ℕ} (hi : i < l.length) : l.getD i 0 ∈ l := by
  rw [List.getD_eq_getElem l 0 hi]
  exact List.getElem_mem hi

theorem sorted_ext {l₁ l₂ : List ℚ} (h₁ : l₁.Sorted (· < ·)) (h₂ : l₂.Sorted (· < ·))
    (hm : ∀ x, x ∈ l₁ ↔ x ∈ l₂) : l₁ = l₂ := by
  induction l₁ generalizing l₂ with
  | nil =>
    cases l₂ with
    | nil => rfl
    | cons b t => exact absurd ((hm b).mpr (by simp)) (by simp)
  | cons a t ih =>
    cases l₂ with
    | nil => exact absurd ((hm a).mp (by simp)) (by simp)
    | cons b t₂ =>
      rw [List.sorted_cons] at h₁ h₂
      have hab : a = b := by
        rcases List.mem_cons.mp ((hm a).mp (by simp)) with h | h
        · exact h
        · rcases List.mem_cons.mp ((hm b).mpr (by simp)) with h' | h'
          · exact h'.symm
          · have hba := h₂.1 a h
            have hab2 := h₁.1 b h'
            linarith
      subst hab
      congr 1
      apply ih h₁.2 h₂.2
      intro x
      constructor
      · intro hx
        rcases List.mem_cons.mp ((hm x).mp (List.mem_cons_of_mem _ hx)) with rfl | h
        · exact absurd (h₁.1 x hx) (lt_irrefl x)
        · exact h
      · intro hx
        rcases List.mem_cons.mp ((hm x).mpr (List.mem_cons_of_mem _ hx)) with rfl | h
        · exact absurd (h₂.1 x hx) (lt_irrefl x)
        · exact h

theorem roundTo_eq_self {q : ℚ} {n : ℕ} (z : ℤ) (hz : (z : ℚ) = q * 10 ^ n) :
    roundTo n q = q := by
  rw [roundTo, ← hz, round_intCast, hz, mul_div_assoc, div_self (by positivity), mul_one]

theorem isSome_findSome? {α β : Type} {l : List α} {f : α → Option β} {x : α}
    (hx : x ∈ l) (hf : (f x).isSome) : (l.findSome? f).isSome := by
  induction l with
  | nil => cases hx
  | cons a t ih =>
    rw [List.findSome?_cons]
    cases hfa : f a with
    | some v => simp
    | none =>
      rcases List.mem_cons.mp hx with rfl | hx2
      · rw [hfa] at hf; cases hf
      · exact ih hx2

theorem orElse_isSome_right {α : Type} {a : Option α} {f : Unit → Option α}
    (h : (f ()).isSome) : (a.orElse f).isSome := by
  cases a with
  | some v => rfl
  | none => exact h

theorem arangeQ_length (start stop step : ℚ) :
    (arangeQ start stop step).length = (max 0 ⌈(stop - start) / step⌉).toNat := by
  rw [arangeQ, List.length_map, List.length_range]

theorem arangeQ_getD (start stop step : ℚ) {k : ℕ}
    (hk : k < (arangeQ start stop step).length) :
    (arangeQ start stop step).getD k 0 = start + k * step := by
  have hk2 : k < (List.range (max 0 ⌈(stop - start) / step⌉).toNat).length := by
    rw [List.length_range, ← arangeQ_length start stop step]
    exact hk
  rw [arangeQ, List.getD_eq_getElem _ 0 (by simpa using hk2), List.getElem_map,
    List.getElem_range]

theorem mem_arangeQ {start stop step x : ℚ} (hx : x ∈ arangeQ start stop step) :
    ∃ k : ℕ, k < (max 0 ⌈(stop - start) / step⌉).toNat ∧ x = start + k * step := by
  rw [arangeQ] at hx
  obtain ⟨k, hk, rfl⟩ := List.mem_map.mp hx
  exact ⟨k, List.mem_range.mp hk, rfl⟩

theorem arangeQ_elem_lt {start stop step : ℚ} (hstep : 0 < step) {k : ℕ}
    (hk : k < (max 0 ⌈(stop - start) / step⌉).toNat) : start + k * step < stop := by
  have h1 : (k : ℤ) < ⌈(stop - start) / step⌉ := by
    rcases le_or_lt ⌈(stop - start) / step⌉ 0 with h | h
    · omega
    · omega
  have h2 : ((k : ℚ)) < (stop - start) / step := by
    have hup : (⌈(stop - start) / step⌉ : ℚ) < (stop - start) / step + 1 :=
      Int.ceil_lt_add_one _
    have hk2 : ((k : ℚ)) ≤ (⌈(stop - start) / step⌉ : ℚ) - 1 := by
      have : (k : ℤ) ≤ ⌈(stop - start) / step⌉ - 1 := by omega
      exact_mod_cast this
    linarith
  have h3 : (k : ℚ) * step < stop - start := by
    rw [lt_div_iff hstep] at h2
    linarith
  linarith

theorem growthValues0_count : (max 0 ⌈(((15:ℚ)/100 + 1/200) - 0) / (1/100)⌉).toNat = 16 := by
  have h : ⌈(((15:ℚ)/100 + 1/200) - 0) / (1/100)⌉ = 16 := by
    rw [show ((((15:ℚ)/100 + 1/200) - 0) / (1/100)) = 31/2 by norm_num, Int.ceil_eq_iff]
    norm_num
  rw [h]
  rfl

theorem growthValues0_length : growthValues0.length = 16 := by
  rw [growthValues0, List.length_map, arangeQ_length, growthValues0_count]

theorem growthValues0_getD {p : ℕ} (hp : p < 16) : growthValues0.getD p 0 = (p : ℚ) / 100 := by
  have hlen : p < (arangeQ 0 (15/100 + 1/200) (1/100)).length := by
    rw [arangeQ_length, growthValues0_count]
    exact hp
  rw [growthValues0]
  rw [List.getD_eq_getElem _ 0 (by simpa [List.length_map] using hlen), List.getElem_map,
    ← List.getD_eq_getElem _ 0 hlen, arangeQ_getD _ _ _ hlen,
    roundTo_eq_self ((p : ℤ) * 100) (by push_cast; ring)]
  ring

theorem mem_growthValues0 {g : ℚ} (hg : g ∈ growthValues0) :
    ∃ p : ℕ, p < 16 ∧ g = (p : ℚ) / 100 := by
  rw [growthValues0] at hg
  obtain ⟨y, hy, rfl⟩ := List.mem_map.mp hg
  obtain ⟨k, hk, rfl⟩ := mem_arangeQ hy
  rw [growthValues0_count] at hk
  refine ⟨k, hk, ?_⟩
  rw [roundTo_eq_self ((k : ℤ) * 100) (by push_cast; ring)]
  ring

theorem growthValues0_sorted : growthValues0.Sorted (· < ·) := by
  rw [List.Sorted, List.pairwise_iff_getElem]
  intro a b ha hb hab
  rw [growthValues0_length] at ha hb
  rw [← List.getD_eq_getElem _ 0, ← List.getD_eq_getElem _ 0,
    growthValues0_getD ha, growthValues0_getD hb]
  have : (a : ℚ) < b := by exact_mod_cast hab
  linarith

theorem growth_values_final_sorted (bg : ℚ) : (growth_values_final bg).Sorted (· < ·) := by
  rw [growth_values_final]
  exact sortDedup_sorted _

theorem mem_growth_values_final {bg x : ℚ} :
    x ∈ growth_values_final bg
      ↔ x ∈ growthValues0 ∨ (bg ∉ growthValues0 ∧ x = roundTo 4 bg) := by
  rw [growth_values_final, mem_sortDedup]
  split
  · next h => simp [h]
  · next h => simp [h, List.mem_append]

theorem gvf_of_big {bg : ℚ} (hbig : 15/100 < roundTo 4 bg) (hnm : bg ∉ growthValues0) :
    growth_values_final bg = growthValues0 ++ [roundTo 4 bg] := by
  apply sorted_ext (growth_values_final_sorted bg)
  · rw [List.Sorted, List.pairwise_append]
    refine ⟨growthValues0_sorted, by simp, ?_⟩
    intro a ha b hb
    rw [List.mem_singleton] at hb
    subst hb
    obtain ⟨q, hq, rfl⟩ := mem_growthValues0 ha
    have hqle : (q : ℚ) ≤ 15 := by exact_mod_cast Nat.le_of_lt_succ hq
    calc (q : ℚ) / 100 ≤ 15/100 := by linarith
      _ < roundTo 4 bg := hbig
  · intro x
    rw [mem_growth_values_final]
    simp [hnm, List.mem_append]

theorem roundTo_nonpos_lt {bw : ℚ} (h : roundTo 4 bw ≤ 0) : bw < 1/20000 := by
  rw [roundTo] at h
  have hz : round (bw * 10 ^ 4) ≤ 0 := by
    by_contra hz
    push_neg at hz
    have : (0:ℚ) < (round (bw * 10 ^ 4) : ℚ) / 10 ^ 4 := by
      apply div_pos _ (by positivity)
      exact_mod_cast hz
    linarith
  rw [round_eq] at hz
  have := Int.lt_floor_add_one (bw * 10 ^ 4 + 1/2)
  have hle : ((⌊bw * 10 ^ 4 + 1/2⌋ : ℤ) : ℚ) ≤ 0 := by exact_mod_cast hz
  nlinarith

theorem roundTo2_le_15 {bw : ℚ} (h : bw < 1/20000) : roundTo 2 (bw + 15/100) ≤ 15/100 := by
  rw [roundTo, round_eq]
  have hfl : ⌊(bw + 15/100) * 10 ^ 2 + 1/2⌋ ≤ 15 := by
    have h1 : ((bw + 15/100) * 10 ^ 2 + 1/2 : ℚ) < 16 := by nlinarith
    have h2 : ⌊(bw + 15/100) * 10 ^ 2 + 1/2⌋ < (16 : ℤ) := Int.floor_lt.mpr (by exact_mod_cast h1)
    omega
  have hflq : ((⌊(bw + 15/100) * 10 ^ 2 + 1/2⌋ : ℤ) : ℚ) ≤ 15 := by exact_mod_cast hfl
  calc ((⌊(bw + 15/100) * 10 ^ 2 + 1/2⌋ : ℤ) : ℚ) / 10 ^ 2 ≤ (15 : ℚ) / 10 ^ 2 :=
        (div_le_div_right (by positivity)).mpr hflq
    _ = 15/100 := by norm_num

theorem mem_common_wacc {bw x : ℚ} (hx : x ∈ common_wacc_values bw) :
    (∃ z : ℤ, x = (z : ℚ) / 100 ∧ 1 ≤ z) ∧ x < roundTo 2 (bw + 15/100) + 1/200 := by
  simp only [common_wacc_values] at hx
  obtain ⟨y, hy, rfl⟩ := List.mem_map.mp hx
  obtain ⟨k, hk, rfl⟩ := mem_arangeQ hy
  have hmin : ∃ zm : ℤ, (max (1/100) (roundTo 2 (bw - 15/100)) : ℚ) = (zm : ℚ) / 100 ∧ 1 ≤ zm := by
    rcases le_or_lt (roundTo 2 (bw - 15/100)) (1/100) with h | h
    · exact ⟨1, by rw [max_eq_left h]; norm_num, le_refl 1⟩
    · refine ⟨round ((bw - 15/100) * 10 ^ 2), by rw [max_eq_right h.le, roundTo]; norm_num, ?_⟩
      by_contra hcon
      push_neg at hcon
      have hz0 : round ((bw - 15/100) * 10 ^ 2) ≤ 1 := by omega
      have hcontra : roundTo 2 (bw - 15/100) ≤ 1/100 := by
        rw [roundTo]
        have hzq : ((round ((bw - 15/100) * 10 ^ 2) : ℤ) : ℚ) ≤ 1 := by exact_mod_cast hz0
        calc ((round ((bw - 15/100) * 10 ^ 2) : ℤ) : ℚ) / 10 ^ 2 ≤ (1 : ℚ) / 10 ^ 2 :=
              (div_le_div_right (by positivity)).mpr hzq
          _ = 1/100 := by norm_num
      linarith
  obtain ⟨zm, hzm, hzm1⟩ := hmin
  have hq : (((zm + (k : ℤ)) * 100 : ℤ) : ℚ)
      = (max (1/100) (roundTo 2 (bw - 15/100)) + (k : ℚ) * (1/100)) * 10 ^ 4 := by
    rw [hzm]
    push_cast
    ring
  rw [roundTo_eq_self _ hq]
  constructor
  · refine ⟨zm + k, ?_, by omega⟩
    rw [hzm]
    push_cast
    ring
  · have hlt := arangeQ_elem_lt (show (0:ℚ) < 1/100 by norm_num) hk
    linarith

theorem dictEntry_nonempty_above (bw : ℚ) {p : ℕ} (hp : p < 16) :
    ∃ w ∈ waccDictEntry bw ((p : ℚ) / 100), (p : ℚ) / 100 + 99/10000 < w := by
  rw [waccDictEntry]
  split
  · next hne =>
    obtain ⟨w, hw⟩ := List.exists_mem_of_ne_nil _ hne
    refine ⟨w, hw, ?_⟩
    have := (List.mem_filter.mp hw).2
    simpa using this
  · refine ⟨roundTo 2 ((p : ℚ) / 100 + 1/100), by simp, ?_⟩
    rw [roundTo_eq_self ((p : ℤ) + 1) (by push_cast; ring)]
    norm_num

theorem dictEntry_subset_all {bw g : ℚ} (hg : g ∈ growthValues0) :
    ∀ x ∈ waccDictEntry bw g, x ∈ all_wacc_values bw := by
  intro x hx
  have hjoin : x ∈ (growthValues0.map (waccDictEntry bw)).join :=
    List.mem_join.mpr ⟨waccDictEntry bw g, List.mem_map.mpr ⟨g, hg, rfl⟩, hx⟩
  rw [all_wacc_values, mem_sortDedup]
  split
  · rwa [mem_sortDedup]
  · rw [List.mem_append, mem_sortDedup]
    exact Or.inl hjoin

theorem dictEntry_elem {bw : ℚ} {p : ℕ} {x : ℚ}
    (hx : x ∈ waccDictEntry bw ((p : ℚ) / 100)) :
    x ∈ common_wacc_values bw ∨ x = ((p : ℚ) + 1) / 100 := by
  rw [waccDictEntry] at hx
  split at hx
  · exact Or.inl (List.mem_filter.mp hx).1
  · rcases List.mem_cons.mp hx with rfl | hx2
    · right
      rw [roundTo_eq_self ((p : ℤ) + 1) (by push_cast; ring)]
      push_cast
      ring
    · exact Or.inl (List.mem_filter.mp hx2).1

theorem all_wacc_sorted (bw : ℚ) : (all_wacc_values bw).Sorted (· < ·) := by
  rw [all_wacc_values]
  exact sortDedup_sorted _

theorem all_wacc_above (bw : ℚ) {p : ℕ} (hp : p < 16) :
    ∃ w ∈ all_wacc_values bw, (p : ℚ) / 100 + 99/10000 < w := by
  obtain ⟨w, hw, hwgt⟩ := dictEntry_nonempty_above bw hp
  have hg : ((p : ℚ) / 100) ∈ growthValues0 := by
    have := growthValues0_getD hp
    rw [← this]
    exact getD_mem (by rw [growthValues0_length]; exact hp)
  exact ⟨w, dictEntry_subset_all hg w hw, hwgt⟩

theorem mem_all_wacc {bw x : ℚ} (hx : x ∈ all_wacc_values bw) :
    x = roundTo 4 bw ∨ ∃ p : ℕ, p < 16 ∧ x ∈ waccDictEntry bw ((p : ℚ) / 100) := by
  rw [all_wacc_values, mem_sortDedup] at hx
  have hjoin : ∀ y : ℚ, y ∈ (growthValues0.map (waccDictEntry bw)).join →
      ∃ p : ℕ, p < 16 ∧ y ∈ waccDictEntry bw ((p : ℚ) / 100) := by
    intro y hy
    obtain ⟨l, hl, hyl⟩ := List.mem_join.mp hy
    obtain ⟨g, hg, rfl⟩ := List.mem_map.mp hl
    obtain ⟨p, hp, rfl⟩ := mem_growthValues0 hg
    exact ⟨p, hp, hyl⟩
  split at hx
  · rw [mem_sortDedup] at hx
    exact Or.inr (hjoin x hx)
  · rcases List.mem_append.mp hx with h | h
    · rw [mem_sortDedup] at h
      exact Or.inr (hjoin x h)
    · left
      simpa using h

theorem all_wacc_elem_cent {bw x : ℚ} (hx : x ∈ all_wacc_values bw) :
    x = roundTo 4 bw ∨ ∃ z : ℤ, x = (z : ℚ) / 100 ∧ 1 ≤ z := by
  rcases mem_all_wacc hx with h | ⟨p, hp, hentry⟩
  · exact Or.inl h
  · rcases dictEntry_elem hentry with hc | he
    · exact Or.inr (mem_common_wacc hc).1
    · refine Or.inr ⟨(p : ℤ) + 1, ?_, by omega⟩
      rw [he]
      push_cast
      ring

theorem all_wacc_elem_bounded {bw x : ℚ} (hbw : roundTo 4 bw ≤ 0)
    (hx : x ∈ all_wacc_values bw) :
    x = roundTo 4 bw ∨ ∃ z : ℤ, x = (z : ℚ) / 100 ∧ 1 ≤ z ∧ z ≤ 16 := by
  have hmax : roundTo 2 (bw + 15/100) ≤ 15/100 := roundTo2_le_15 (roundTo_nonpos_lt hbw)
  rcases mem_all_wacc hx with h | ⟨p, hp, hentry⟩
  · exact Or.inl h
  · rcases dictEntry_elem hentry with hc | he
    · obtain ⟨⟨z, hz, hz1⟩, hlt⟩ := mem_common_wacc hc
      refine Or.inr ⟨z, hz, hz1, ?_⟩
      rw [hz] at hlt
      have hzq : (z : ℚ) < 16 := by linarith
      have hzlt : z < (16 : ℤ) := by exact_mod_cast hzq
      omega
    · refine Or.inr ⟨(p : ℤ) + 1, ?_, ?_, ?_⟩
      · rw [he]
        push_cast
        ring
      · omega
      · omega

theorem mem_centList16 {x : ℚ} {z : ℤ} (hx : x = (z : ℚ) / 100) (h1 : 1 ≤ z) (h16 : z ≤ 16) :
    x ∈ centList16 := by
  have h2 : (((z - 1).toNat : ℕ) : ℤ) = z - 1 := Int.toNat_of_nonneg (by omega)
  have hk : (z - 1).toNat < 16 := by omega
  have hxval : x = ((((z - 1).toNat : ℕ) : ℚ) + 1) / 100 := by
    have hcast : (((z - 1).toNat : ℕ) : ℚ) = (z : ℚ) - 1 := by exact_mod_cast h2
    rw [hx, hcast]
    ring
  rw [centList16, hxval]
  exact List.mem_map_of_mem _ (List.mem_range.mpr hk)

theorem nodup_of_sorted {l : List ℚ} (h : l.Sorted (· < ·)) : l.Nodup :=
  h.imp (fun hlt => ne_of_lt hlt)

theorem length_le_of_nodup_subset {l₁ l₂ : List ℚ} (h : l₁.Nodup) (hs : ∀ x ∈ l₁, x ∈ l₂) :
    l₁.length ≤ l₂.length := by
  calc l₁.length = l₁.toFinset.card := (List.toFinset_card_of_nodup h).symm
    _ ≤ l₂.toFinset.card := Finset.card_le_card
        (fun x hx => List.mem_toFinset.mpr (hs x (List.mem_toFinset.mp hx)))
    _ ≤ l₂.length := l₂.toFinset_card_le

theorem all_wacc_length_le {bw : ℚ} (hbw : roundTo 4 bw ≤ 0) :
    (all_wacc_values bw).length ≤ 17 := by
  have hsub : ∀ x ∈ all_wacc_values bw, x ∈ roundTo 4 bw :: centList16 := by
    intro x hx
    rcases all_wacc_elem_bounded hbw hx with h | ⟨z, hz, hz1, hz16⟩
    · rw [h]; exact List.mem_cons_self _ _
    · exact List.mem_cons_of_mem _ (mem_centList16 hz hz1 hz16)
  have := length_le_of_nodup_subset (nodup_of_sorted (all_wacc_sorted bw)) hsub
  simpa [centList16] using this

theorem dcf_results_isSome {p : SensParams} {ws gs : List ℚ} {i j : ℕ}
    (h : gs.getD j 0 < ws.getD i 0) : (dcf_results p ws gs i j).isSome := by
  rw [dcf_results, if_pos h]
  rfl

theorem searchDiag_isSome_of_hit (results : ℕ → ℕ → Option ℚ) (nW nG i j k : ℕ)
    (hk1 : 1 ≤ k) (hk2 : k < max nW nG) (dir : ℤ × ℤ) (hdir : dir ∈ diagDirections)
    (ni nj : ℕ) (hni : (i : ℤ) + dir.1 * k = ni) (hnj : (j : ℤ) + dir.2 * k = nj)
    (hniW : ni < nW) (hnjG : nj < nG) (hres : (results ni nj).isSome) :
    (searchDiag results nW nG i j).isSome := by
  rw [searchDiag]
  apply isSome_findSome? (x := k)
  · rw [List.mem_range'_1]
    omega
  · apply isSome_findSome? (x := dir) hdir
    simp only
    rw [hni, hnj, if_pos ⟨Int.natCast_nonneg ni, by exact_mod_cast hniW,
      Int.natCast_nonneg nj, by exact_mod_cast hnjG⟩]
    simpa [Int.toNat_natCast] using hres

/-- Every invalid cell of the sensitivity grid (WACC ≤ growth) has a valid
cell on one of the eight rays of interpolation step (c): up the same column
when some mesh WACC exceeds the cell's growth value, and otherwise — which
forces the growth value to be the off-mesh appended base terminal growth in
the last column — leftwards along the row or up-left along the diagonal. -/
theorem invalid_cell_resolves (p : SensParams) (bg bw : ℚ) {i j : ℕ}
    (hi : i < (all_wacc_values bw).length) (hj : j < (growth_values_final bg).length)
    (hinv : (all_wacc_values bw).getD i 0 ≤ (growth_values_final bg).getD j 0) :
    (searchDiag (dcf_results p (all_wacc_values bw) (growth_values_final bg))
      (all_wacc_values bw).length (growth_values_final bg).length i j).isSome := by
  by_cases hcol : ∃ w ∈ all_wacc_values bw, (growth_values_final bg).getD j 0 < w
  · -- some mesh WACC beats this growth value: ray (1, 0) up the column
    obtain ⟨w, hw, hgt⟩ := hcol
    obtain ⟨i', hi', hEq⟩ := List.mem_iff_getElem.mp hw
    have hEq' : (all_wacc_values bw).getD i' 0 = w := by
      rw [List.getD_eq_getElem _ 0 hi']
      exact hEq
    have hii : i < i' := by
      by_contra hle
      push_neg at hle
      have := sorted_getD_le (all_wacc_sorted bw) hle hi
      rw [hEq'] at this
      linarith
    apply searchDiag_isSome_of_hit _ _ _ _ _ (i' - i) (by omega) (by omega)
      ((1 : ℤ), (0 : ℤ)) (by simp [diagDirections]) i' j
      (by omega) (by omega) hi' hj
    apply dcf_results_isSome
    rw [hEq']
    exact hgt
  · push_neg at hcol
    -- no mesh WACC beats it: the growth value exceeds 0.1599, so it is the
    -- appended base growth in the last column (j = 16)
    obtain ⟨wstar, hwmem, hwbig⟩ := all_wacc_above bw (show 15 < 16 by omega)
    have hGj_big : (15 : ℚ)/100 + 99/10000 < (growth_values_final bg).getD j 0 := by
      have := hcol wstar hwmem
      push_cast at hwbig
      linarith
    have hGjmem : (growth_values_final bg).getD j 0 ∈ growth_values_final bg := getD_mem hj
    rcases mem_growth_values_final.mp hGjmem with hfixed | ⟨hnm, hbg⟩
    · obtain ⟨q, hq, hqe⟩ := mem_growthValues0 hfixed
      have : (q : ℚ) ≤ 15 := by exact_mod_cast Nat.le_of_lt_succ hq
      rw [hqe] at hGj_big
      linarith
    · have hbig : 15/100 < roundTo 4 bg := by
        rw [← hbg]
        linarith
      have hG : growth_values_final bg = growthValues0 ++ [roundTo 4 bg] := gvf_of_big hbig hnm
      have hlen : (growth_values_final bg).length = 17 := by
        rw [hG, List.length_append, growthValues0_length]
        rfl
      have hj16 : j = 16 := by
        by_contra hne
        have hjlt : j < 16 := by omega
        have hval : (growth_values_final bg).getD j 0 = (j : ℚ)/100 := by
          rw [hG, List.getD_append _ _ _ _ (by rw [growthValues0_length]; exact hjlt)]
          exact growthValues0_getD hjlt
        have : (j : ℚ) ≤ 15 := by exact_mod_cast Nat.le_of_lt_succ hjlt
        rw [hval] at hGj_big
        linarith
      subst hj16
      have hG0 : (growth_values_final bg).getD 0 0 = 0 := by
        rw [hG, List.getD_append _ _ _ _ (by rw [growthValues0_length]; omega)]
        rw [growthValues0_getD (by omega)]
        norm_num
      by_cases hwi : 0 < (all_wacc_values bw).getD i 0
      · -- ray (0, -1) to column 0, where the growth value is 0
        apply searchDiag_isSome_of_hit _ _ _ _ _ 16 (by omega)
          (by rw [hlen]; omega) ((0 : ℤ), (-1 : ℤ)) (by simp [diagDirections])
          i 0 (by omega) (by omega) hi (by omega)
        apply dcf_results_isSome
        rw [hG0]
        exact hwi
      · -- the cell's WACC is the (nonpositive) rounded base WACC in row 0;
        -- ray (1, -1) hits (m, 16 - m) where m is the index of the largest
        -- mesh WACC 0.16
        push_neg at hwi
        have hbw : roundTo 4 bw ≤ 0 := by
          rcases all_wacc_elem_cent (getD_mem hi) with heq | ⟨z, hz, hz1⟩
          · rw [← heq]
            exact hwi
          · exfalso
            rw [hz] at hwi
            have : (1 : ℚ) ≤ (z : ℚ) := by exact_mod_cast hz1
            linarith
        have hlenW : (all_wacc_values bw).length ≤ 17 := all_wacc_length_le hbw
        have hi0 : i = 0 := by
          by_contra h0
          have h1 : 0 < i := by omega
          have hlt := sorted_getD_lt (all_wacc_sorted bw) h1 hi
          rcases all_wacc_elem_cent (getD_mem (show 0 < (all_wacc_values bw).length by omega))
            with heq | ⟨z, hz, hz1⟩
          · rcases all_wacc_elem_cent (getD_mem hi) with heq2 | ⟨z, hz, hz1⟩
            · rw [← heq] at heq2
              rw [heq2] at hlt
              exact lt_irrefl _ hlt
            · rw [hz] at hwi
              have : (1 : ℚ) ≤ (z : ℚ) := by exact_mod_cast hz1
              linarith
          · rw [hz] at hlt
            have : (1 : ℚ) ≤ (z : ℚ) := by exact_mod_cast hz1
            linarith
        subst hi0
        obtain ⟨m, hm, hmEq⟩ := List.mem_iff_getElem.mp hwmem
        have hmEq' : (all_wacc_values bw).getD m 0 = wstar := by
          rw [List.getD_eq_getElem _ 0 hm]
          exact hmEq
        have hw16 : wstar = 16/100 := by
          rcases all_wacc_elem_bounded hbw hwmem with heq | ⟨z, hz, hz1, hz16⟩
          · rw [heq] at hwbig
            linarith
          · have hz15 : (1599 : ℚ)/100 < (z : ℚ) := by
              rw [hz] at hwbig
              push_cast at hwbig
              linarith
            have : (15 : ℤ) < z := by
              have : (15 : ℚ) < (z : ℚ) := by linarith
              exact_mod_cast this
            have hz16' : z = 16 := by omega
            rw [hz, hz16']
            norm_num
        have hm1 : 1 ≤ m := by
          by_contra h0
          have hm0 : m = 0 := by omega
          rw [hm0] at hmEq'
          rw [hmEq'] at hwi
          rw [hw16] at hwi
          linarith
        have hm16 : m ≤ 16 := by omega
        have hGval : (growth_values_final bg).getD (16 - m) 0 < 16/100 := by
          rcases Nat.eq_or_lt_of_le hm16 with h16 | hlt16
          · rw [show 16 - m = 0 by omega, hG0]
            norm_num
          · have hjlt : 16 - m < 16 := by omega
            have : (growth_values_final bg).getD (16 - m) 0 = ((16 - m : ℕ) : ℚ)/100 := by
              rw [hG, List.getD_append _ _ _ _ (by rw [growthValues0_length]; exact hjlt)]
              exact growthValues0_getD hjlt
            rw [this]
            have : ((16 - m : ℕ) : ℚ) < 16 := by exact_mod_cast hjlt
            linarith
        apply searchDiag_isSome_of_hit _ _ _ _ _ m hm1 (by rw [hlen]; omega)
          ((1 : ℤ), (-1 : ℤ)) (by simp [diagDirections]) m (16 - m)
          (by omega) (by omega) hm (by rw [hlen]; omega)
        apply dcf_results_isSome
        rw [hmEq', hw16]
        exact hGval

/-- C7: in the sensitivity grid of `create_sensitivity_analysis`, every
cell whose WACC exceeds its column's growth rate by more than one
percentage point holds the directly computed fair value (no `*` marker),
and every cell whose WACC is at most the growth rate holds the value of
the first valid neighbour found by the row-right / column-down /
expanding-diagonal search, with the `*` marker — such a cell is never left
unresolved (`N/A`). -/
theorem claim_C7 (p : SensParams) (bg bw : ℚ) (i j : ℕ)
    (hi : i < (all_wacc_values bw).length)
    (hj : j < (growth_values_final bg).length) :
    ((growth_values_final bg).getD j 0 + 1/100 < (all_wacc_values bw).getD i 0 →
      create_sensitivity_cells p bg bw i j =
        .direct ((p.calcDcf p.initial_fcf p.growth_rate
          ((growth_values_final bg).getD j 0) ((all_wacc_values bw).getD i 0)
          p.forecast_years 10 p.net_debt p.shares_outstanding).fair_value_per_share)) ∧
    ((all_wacc_values bw).getD i 0 ≤ (growth_values_final bg).getD j 0 →
      ∃ v, interpSearch (dcf_results p (all_wacc_values bw) (growth_values_final bg))
          (all_wacc_values bw).length (growth_values_final bg).length i j = some v ∧
        create_sensitivity_cells p bg bw i j = .interp v) := by
  constructor
  · intro hgt
    have hlt : (growth_values_final bg).getD j 0 < (all_wacc_values bw).getD i 0 := by
      linarith
    rw [create_sensitivity_cells, fillCell, if_neg (not_le.mpr hlt), dcf_results, if_pos hlt]
  · intro hle
    have h1 : ((searchColBelow (dcf_results p (all_wacc_values bw) (growth_values_final bg))
        i j).orElse fun _ => searchDiag
          (dcf_results p (all_wacc_values bw) (growth_values_final bg))
          (all_wacc_values bw).length (growth_values_final bg).length i j).isSome :=
      orElse_isSome_right (invalid_cell_resolves p bg bw hi hj hle)
    have hsome : (interpSearch (dcf_results p (all_wacc_values bw) (growth_values_final bg))
        (all_wacc_values bw).length (growth_values_final bg).length i j).isSome :=
      orElse_isSome_right h1
    obtain ⟨v, hv⟩ := Option.isSome_iff_exists.mp hsome
    refine ⟨v, hv, ?_⟩
    rw [create_sensitivity_cells, fillCell, if_pos hle, hv]

theorem zero_mem_growthValues0 : (0 : ℚ) ∈ growthValues0 := by
  have hmem := getD_mem (show (0 : ℕ) < growthValues0.length by
    rw [growthValues0_length]; omega)
  rw [growthValues0_getD (show (0 : ℕ) < 16 by omega)] at hmem
  simpa using hmem

theorem gvf_nonempty (bg : ℚ) : 0 < (growth_values_final bg).length :=
  List.length_pos.mpr
    (List.ne_nil_of_mem (mem_growth_values_final.mpr (Or.inl zero_mem_growthValues0)))

theorem all_wacc_neg1_nonempty : 0 < (all_wacc_values (-1 : ℚ)).length := by
  obtain ⟨w, hw, _⟩ := all_wacc_above (-1 : ℚ) (show 0 < 16 by omega)
  exact List.length_pos.mpr (List.ne_nil_of_mem hw)

/-- C7 witness: the claim at base WACC −1, base terminal growth 0.5, cell
(0, 0), with the trivial evaluator bundle. -/
theorem claim_C7_witness :
    0 < (all_wacc_values (-1 : ℚ)).length ∧
    0 < (growth_values_final (1/2 : ℚ)).length ∧
    ((((growth_values_final (1/2 : ℚ)).getD 0 0 + 1/100 <
          (all_wacc_values (-1 : ℚ)).getD 0 0 →
        create_sensitivity_cells sensParams0 (1/2) (-1) 0 0 =
          .direct ((sensParams0.calcDcf sensParams0.initial_fcf sensParams0.growth_rate
            ((growth_values_final (1/2 : ℚ)).getD 0 0)
            ((all_wacc_values (-1 : ℚ)).getD 0 0)
            sensParams0.forecast_years 10 sensParams0.net_debt
            sensParams0.shares_outstanding).fair_value_per_share)) ∧
      ((all_wacc_values (-1 : ℚ)).getD 0 0 ≤ (growth_values_final (1/2 : ℚ)).getD 0 0 →
        ∃ v, interpSearch (dcf_results sensParams0 (all_wacc_values (-1))
              (growth_values_final (1/2)))
            (all_wacc_values (-1 : ℚ)).length (growth_values_final (1/2 : ℚ)).length 0 0 =
          some v ∧
          create_sensitivity_cells sensParams0 (1/2) (-1) 0 0 = .interp v))) :=
  ⟨all_wacc_neg1_nonempty, gvf_nonempty (1/2),
    claim_C7 sensParams0 (1/2) (-1) 0 0 all_wacc_neg1_nonempty (gvf_nonempty (1/2))⟩

/-- C3 witness: instantiating the amended claim's universally quantified
parts at the `d = 0.03 ≤ tg = 0.04` scenario. -/
theorem claim_C3_witness :
    calculate_dcf_earnings_based 6 (1/10) (3/100) 10 (1/25) 10
      = (dcf_closed_and_direct 6 (stage1Clamped (1/10)) (pctNorm (1/25) + 0.02)
          (pctNorm (1/25)) 10 10).1
    ∧ (calculate_two_stage_dcf 1000 (1/10) (1/25) (3/100) 10 10 0 100
        false 0 false).success = false :=
  ⟨claim_C3.1 6 (1/10) (3/100) (1/25) 10 10 (by norm_num [pctNorm]),
   claim_C3.2.2.2 1000 (1/10) (1/25) (3/100) 10 10 0 100 false 0 false (by norm_num)⟩

end DCF
